import Mathlib

/-!
Verification development for the dnsimple-go client library vendored by
strillone.  The Go source is shallowly embedded: each Go function used by a
claim is translated into an executable Lean definition, and the claims of the
specification are settled as theorems about those definitions.

Modelling conventions, used throughout:
* Go `int`/`int64` values are modelled as `Int` (overflow is modelled
  explicitly where the Go code can clamp, see `goParseInt64`).
* A JSON document is modelled by the inductive `Json`; object member lists
  keep their textual order, and duplicate keys are processed in order (the
  later assignment wins), matching encoding/json.
* A raw `[]byte` webhook/body payload is abstracted by `Payload`: either
  bytes that parse as a JSON document (constructor `json`, carrying the
  document) or bytes that are not valid JSON (constructor `malformed`,
  carrying the raw text).  This is exactly the information `json.Unmarshal`
  and `json.Decoder.Decode` observe about the bytes.
* `encoding/json` stops being modelled at the first decode error: the Go
  decoder records the first error and may keep filling later fields, but no
  code path here inspects the partially-filled fields after an error, so the
  first-error behaviour is the observable one.
-/

/-- Json documents: the values `encoding/json` distinguishes.  Numbers are
restricted to integers, which covers every numeric field this library
decodes (ids, counters, epoch seconds). -/
inductive Json where
  | null : Json
  | bool (b : Bool) : Json
  | num (n : Int) : Json
  | str (s : String) : Json
  | arr (elems : List Json) : Json
  | obj (members : List (String × Json)) : Json

/-- Raw request/response/webhook bytes, abstracted by what a JSON decoder can
observe of them: either they parse as a JSON document or they are malformed
(empty bodies included, which `Decoder.Decode` reports as an io.EOF error). -/
inductive Payload where
  | json (doc : Json) : Payload
  | malformed (raw : String) : Payload

/-- Value of the last occurrence of a key in a JSON object member list;
encoding/json processes members in order, so the last assignment wins. -/
def lookupLast (key : String) : List (String × Json) → Option Json
  | [] => none
  | (k, v) :: rest =>
    match lookupLast key rest with
    | some r => some r
    | none => if k == key then some v else none

namespace Dnsimple

/-- Pagination mirrors the Go struct `Pagination` (part_000 lines 235-240):
four int fields with json tags current_page, per_page, total_pages,
total_entries. -/
structure Pagination where
  CurrentPage : Int := 0
  PerPage : Int := 0
  TotalPages : Int := 0
  TotalEntries : Int := 0
deriving DecidableEq

/-- One member of a JSON object decoded into the `Pagination` struct
(`json.Unmarshal` semantics): a known key must hold a number (a JSON null
leaves the field alone), unknown keys are ignored. -/
def paginationStep (p : Pagination) (k : String) (v : Json) : Except String Pagination :=
  if k == "current_page" then
    match v with
    | .num n => .ok { p with CurrentPage := n }
    | .null => .ok p
    | _ => .error "json: cannot unmarshal value into field current_page of type int"
  else if k == "per_page" then
    match v with
    | .num n => .ok { p with PerPage := n }
    | .null => .ok p
    | _ => .error "json: cannot unmarshal value into field per_page of type int"
  else if k == "total_pages" then
    match v with
    | .num n => .ok { p with TotalPages := n }
    | .null => .ok p
    | _ => .error "json: cannot unmarshal value into field total_pages of type int"
  else if k == "total_entries" then
    match v with
    | .num n => .ok { p with TotalEntries := n }
    | .null => .ok p
    | _ => .error "json: cannot unmarshal value into field total_entries of type int"
  else
    .ok p

/-- Members of a JSON object decoded in order into `Pagination`. -/
def paginationApply : Pagination → List (String × Json) → Except String Pagination
  | p, [] => .ok p
  | p, kv :: rest =>
    match paginationStep p kv.1 kv.2 with
    | .ok p2 => paginationApply p2 rest
    | .error err => .error err

/-- Decoded content of an error body: the fields of the Go struct
`ErrorResponse` (part_000 lines 242-248) that `json.Decode` can fill.  The
struct embeds `Response`, contributing the `pagination`-tagged field; the
`message`-tagged field is its own. -/
structure ErrorBody where
  Message : String := ""
  Pagination : Option Pagination := none
deriving DecidableEq

/-- One member of a JSON object decoded into `ErrorResponse`: `message` must
be a string, `pagination` must be an object (decoded as `Pagination`) or
null, a null leaves a field alone and unknown keys are ignored.  The
embedded untagged `HttpResponse` field would be addressed by the JSON key
"HttpResponse"; a null or object there is accepted and its (irrelevant)
content dropped, anything else is a type mismatch, as in encoding/json. -/
def errorBodyStep (e : ErrorBody) (k : String) (v : Json) : Except String ErrorBody :=
  if k == "message" then
    match v with
    | .str s => .ok { e with Message := s }
    | .null => .ok e
    | _ => .error "json: cannot unmarshal value into field message of type string"
  else if k == "pagination" then
    match v with
    | .obj kvs =>
      match paginationApply {} kvs with
      | .ok p => .ok { e with Pagination := some p }
      | .error err => .error err
    | .null => .ok e
    | _ => .error "json: cannot unmarshal value into field pagination of type Pagination"
  else if k == "HttpResponse" then
    match v with
    | .obj _ => .ok e
    | .null => .ok e
    | _ => .error "json: cannot unmarshal value into field HttpResponse"
  else
    .ok e

/-- Members of a JSON object decoded in order into `ErrorResponse`. -/
def errorBodyApply : ErrorBody → List (String × Json) → Except String ErrorBody
  | e, [] => .ok e
  | e, kv :: rest =>
    match errorBodyStep e kv.1 kv.2 with
    | .ok e2 => errorBodyApply e2 rest
    | .error err => .error err

/-- Decoding of a response body into `ErrorResponse`, as performed by
`json.NewDecoder(resp.Body).Decode(errorResponse)` in `CheckResponse`
(part_000 line 268): malformed bytes (an empty body included) and non-object
documents are decode errors; otherwise the members are applied in order. -/
def decodeErrorBody : Payload → Except String ErrorBody
  | .malformed _ => .error "invalid JSON body"
  | .json (.obj kvs) => errorBodyApply {} kvs
  | .json _ => .error "json: cannot unmarshal value into type ErrorResponse"

/-- An HTTP response as `CheckResponse` and the rate-limit accessors observe
it: status code, headers, body bytes. -/
structure HttpResponse where
  statusCode : Int
  header : List (String × String) := []
  body : Payload := .malformed ""

/-- ErrorResponse mirrors the Go struct (part_000 lines 242-248): the
embedded `Response` (its `HttpResponse` and `Pagination` fields) plus the
human-readable message. -/
structure ErrorResponse where
  httpResponse : HttpResponse
  pagination : Option Pagination := none
  Message : String := ""

/-- Result of `CheckResponse` (part_000 lines 260-274): `ok` is the nil
error, `apiError` is the returned `*ErrorResponse`, `decodeFailure` is the
JSON decode error returned as-is when the error body fails to decode. -/
inductive CheckResult where
  | ok : CheckResult
  | apiError (e : ErrorResponse) : CheckResult
  | decodeFailure (err : String) : CheckResult

/-- CheckResponse (part_000 lines 260-274): a status code in [200,299] is
success (nil error); otherwise the body is decoded into an `ErrorResponse`
whose `HttpResponse` field is set to the response, and a decode error is
returned as-is. -/
def CheckResponse (resp : HttpResponse) : CheckResult :=
  if 200 ≤ resp.statusCode ∧ resp.statusCode ≤ 299 then
    .ok
  else
    match decodeErrorBody resp.body with
    | .ok b => .apiError { httpResponse := resp, pagination := b.Pagination, Message := b.Message }
    | .error err => .decodeFailure err

/-!
The query-options encoder.  `addURLQueryOptions` (part_000 lines 297-351)
uses reflection over the options struct and net/url for query manipulation.
The reflection view of a struct is modelled as a list of `StructField`
(a url tag plus a value); net/url is modelled on a restricted character
subset, documented at `parseURL`.
-/

/-- Splitting on a separator character, as `strings.Split` does (an empty
input yields one empty segment). -/
def splitAll (sep : Char) : List Char → List (List Char)
  | [] => [[]]
  | c :: rest =>
    let r := splitAll sep rest
    if c == sep then [] :: r
    else
      match r with
      | seg :: segs => (c :: seg) :: segs
      | [] => [[c]]

/-- GoValue models the reflected field values the encoder inspects: the Go
kinds of `isEmptyValue` that occur as option fields (ints, strings, bools,
slices). -/
inductive GoValue where
  | int (n : Int) : GoValue
  | str (s : String) : GoValue
  | bool (b : Bool) : GoValue
  | slice (elems : List GoValue) : GoValue

/-- isEmptyValue (part_000 lines 277-293): length zero for strings and
collections, zero for numbers, false for bools. -/
def isEmptyValue : GoValue → Bool
  | .slice xs => xs.isEmpty
  | .str s => s.isEmpty
  | .bool b => !b
  | .int n => n == 0

mutual

/-- Printing of a reflected value by `fmt.Sprint(sv.Interface())`
(part_000 line 336). -/
def goSprint : GoValue → String
  | .int n => toString n
  | .str s => s
  | .bool b => if b then "true" else "false"
  | .slice xs => "[" ++ String.intercalate " " (goSprintList xs) ++ "]"

/-- Printing of the elements of a reflected slice. -/
def goSprintList : List GoValue → List String
  | [] => []
  | x :: xs => goSprint x :: goSprintList xs

end

/-- One struct field as the reflection loop of `addURLQueryOptions` sees it:
its `url` tag (empty string when the tag is absent) and its value. -/
structure StructField where
  tag : String
  value : GoValue

/-- optionsContains (part_000 lines 353-360). -/
def optionsContains : List String → String → Bool
  | [], _ => false
  | s :: rest, o => if s == o then true else optionsContains rest o

/-- Body of the field loop of `addURLQueryOptions` (part_000 lines 313-337):
the parameter contributed by one struct field, or none when the field is
skipped.  `strings.Split(tag, ",")` always returns a nonempty list, so the
head default is never used. -/
def fieldParam (sf : StructField) : Option (String × String) :=
  if sf.tag == "" then none
  else if sf.tag == "-" then none
  else
    let splits := (splitAll ',' sf.tag.data).map String.mk
    let nm := splits.headD ""
    let opts := splits.tail
    if optionsContains opts "omitempty" && isEmptyValue sf.value then none
    else some (nm, goSprint sf.value)

/-- Insertion into the `qso` map (`qso[name] = ...`, part_000 line 336):
a later field with the same tag name overwrites. -/
def qsoInsert : List (String × String) → String → String → List (String × String)
  | [], k, v => [(k, v)]
  | (k0, v0) :: rest, k, v =>
    if k0 == k then (k0, v) :: rest else (k0, v0) :: qsoInsert rest k v

/-- Characters of the modelled subset allowed in the path part of a URL:
on these, `url.Parse` keeps the path verbatim and `URL.String` re-emits it
unchanged (no percent-escaping in either direction). -/
def pathAllowed (c : Char) : Bool :=
  c.isAlphanum || c == '-' || c == '_' || c == '.' || c == '~' || c == '/'

/-- Characters of the modelled subset allowed in the raw query of a URL: on
these, `url.QueryUnescape` is the identity (no percent-escapes, no pluses)
and `url.QueryEscape` re-emits them unchanged, except for the separators
themselves. -/
def queryAllowed (c : Char) : Bool :=
  c.isAlphanum || c == '-' || c == '_' || c == '.' || c == '~' || c == '&' || c == '='

/-- Split a character list at the first occurrence of a separator; the second
component is none when the separator does not occur. -/
def splitAtFirst (sep : Char) : List Char → List Char × Option (List Char)
  | [] => ([], none)
  | c :: rest =>
    if c == sep then ([], some rest)
    else
      let r := splitAtFirst sep rest
      (c :: r.1, r.2)

/-- Hex digit check, as net/url's ishex. -/
def isHexChar (c : Char) : Bool :=
  c.isDigit || ('a' ≤ c && c ≤ 'f') || ('A' ≤ c && c ≤ 'F')

/-- Check that every '%' in a URL part is followed by two hex digits;
`url.Parse` fails with an invalid-escape error otherwise. -/
def validEscapes : List Char → Bool
  | [] => true
  | c :: rest =>
    if c == '%' then
      match rest with
      | a :: b :: rest2 => isHexChar a && isHexChar b && validEscapes rest2
      | _ => false
    else validEscapes rest

/-- A leading "//" makes `url.Parse` read an authority (host) component,
which is outside the modelled subset. -/
def startsWithDoubleSlash : List Char → Bool
  | a :: b :: _ => a == '/' && b == '/'
  | _ => false

/-- A parsed relative URL of the modelled subset, keeping the fields of
`net/url.URL` that `addURLQueryOptions` touches. -/
structure URL where
  path : List Char
  forceQuery : Bool
  rawQuery : List Char

/-- Model of `url.Parse` restricted to the relative URLs the client builds.
Faithful behaviour on the modelled subset (letters, digits, `-_.~/` in the
path; letters, digits, `-_.~&=` in the query; a '?' separating them, where a
lone trailing '?' sets ForceQuery as in net/url):
the string splits at the first '?' and both parts are kept verbatim.
A '%' escape followed by non-hex digits is the invalid-escape parse error of
net/url (claim C9's failure mode).  Anything else outside the subset is
rejected with a distinct error: url.Parse may accept such strings, so
theorems about successful parses only ever use the subset.  `checkURL`
validates the split pieces and builds the URL value. -/
def checkURL (before : List Char) (force : Bool) (raw : List Char) : Except String URL :=
  if !(validEscapes before && validEscapes raw) then
    .error "invalid URL escape"
  else if !(before.all pathAllowed) then
    .error "URL outside the modelled subset"
  else if !(raw.all queryAllowed) then
    .error "URL outside the modelled subset"
  else if startsWithDoubleSlash before then
    .error "URL outside the modelled subset"
  else
    .ok { path := before, forceQuery := force, rawQuery := raw }

/-- Splitting step of the parse: a lone trailing '?' sets ForceQuery (as in
net/url), otherwise the string splits at the first '?'. -/
def parseURL (s : String) : Except String URL :=
  if s.data.getLast? == some '?' && !(s.data.dropLast.contains '?') then
    checkURL s.data.dropLast true []
  else
    checkURL (splitAtFirst '?' s.data).1 false ((splitAtFirst '?' s.data).2.getD [])

/-- Values.Add of net/url (append a value to the key's slice).  url.Values
is a map; the model keeps keys in first-insertion order, which Encode then
sorts, giving the same encoded string. -/
def valuesAdd : List (String × List String) → String → String → List (String × List String)
  | [], k, v => [(k, [v])]
  | (k0, vs) :: rest, k, v =>
    if k0 == k then (k0, vs ++ [v]) :: rest
    else (k0, vs) :: valuesAdd rest k v

/-- Model of `url.ParseQuery` (invoked by `u.Query()`, part_000 line 344) on
the modelled subset: split the raw query on '&', skip empty segments, split
each segment at the first '='; unescaping is the identity on the subset.
(The repository's Go era also split on ';', which the subset excludes.) -/
def parseQuery (raw : List Char) : List (String × List String) :=
  (splitAll '&' raw).foldl
    (fun m seg =>
      if seg.isEmpty then m
      else
        let kv := splitAtFirst '=' seg
        valuesAdd m (String.mk kv.1) (String.mk (kv.2.getD [])))
    []

/-- Uppercase hex digit, as net/url's percent-escaping uses. -/
def hexUpper (n : Nat) : Char :=
  "0123456789ABCDEF".data.getD n '0'

/-- Model of `url.QueryEscape` for one character: unreserved characters kept,
space to '+', otherwise a percent-escape of the byte (accurate for the ASCII
range; multi-byte runes are outside the modelled subset). -/
def goQueryEscapeChar (c : Char) : List Char :=
  if c.isAlphanum || c == '-' || c == '_' || c == '.' || c == '~' then [c]
  else if c == ' ' then ['+']
  else ['%', hexUpper (c.toNat / 16 % 16), hexUpper (c.toNat % 16)]

/-- Model of `url.QueryEscape`. -/
def goQueryEscape (s : String) : String :=
  String.mk (s.data.foldr (fun c acc => goQueryEscapeChar c ++ acc) [])

/-- Byte-order comparison of strings, as `sort.Strings` uses (identical to
character order on the ASCII subset). -/
def charListLe : List Char → List Char → Bool
  | [], _ => true
  | _ :: _, [] => false
  | a :: as, b :: bs =>
    if a.toNat < b.toNat then true
    else if b.toNat < a.toNat then false
    else charListLe as bs

/-- String comparison via `charListLe`. -/
def strLe (a b : String) : Bool := charListLe a.data b.data

/-- Insertion step of sorting the keys. -/
def insertSorted (p : String × List String) : List (String × List String) → List (String × List String)
  | [] => [p]
  | q :: rest => if strLe p.1 q.1 then p :: q :: rest else q :: insertSorted p rest

/-- Key-sorting, as `sort.Strings(keys)` inside `Values.Encode`; keys are
unique here so stability is irrelevant. -/
def sortByKey : List (String × List String) → List (String × List String)
  | [] => []
  | p :: rest => insertSorted p (sortByKey rest)

/-- Model of `url.Values.Encode`: keys sorted, each key=value pair escaped
and joined with '&', values of one key in slice order. -/
def valuesEncode (vs : List (String × List String)) : String :=
  String.intercalate "&"
    (((sortByKey vs).map (fun kl => kl.2.map (fun v => goQueryEscape kl.1 ++ "=" ++ goQueryEscape v))).flatten)

/-- Model of `URL.String` for a relative URL of the modelled subset: the
path verbatim, then "?" and the raw query when the query is nonempty or
forced. -/
def URL.toString (u : URL) : String :=
  String.mk u.path ++ (if u.forceQuery || !u.rawQuery.isEmpty then "?" ++ String.mk u.rawQuery else "")

/-- addURLQueryOptions (part_000 lines 297-351).  The `options interface{}`
argument is in this repository always a pointer to an options struct; the
model takes its reflection view: `none` is a nil pointer (early return of
lines 304-309), `some fields` the pointed-to struct's fields.  Following the
Go signature, the result pairs the returned path with the returned error. -/
def addURLQueryOptions (path : String) (options : Option (List StructField)) : String × Option String :=
  match options with
  | none => (path, none)
  | some fields =>
    let qso := fields.foldl
      (fun m sf =>
        match fieldParam sf with
        | none => m
        | some kv => qsoInsert m kv.1 kv.2)
      []
    match parseURL path with
    | .error err => (path, some err)
    | .ok u =>
      let qs := qso.foldl (fun vs kv => valuesAdd vs kv.1 kv.2) (parseQuery u.rawQuery)
      (URL.toString { u with rawQuery := (valuesEncode qs).data }, none)

/-- ListOptions (part_000 lines 68-74). -/
structure ListOptions where
  Page : Int := 0
  PerPage : Int := 0

/-- Reflection view of a `ListOptions` value: its two int fields with their
url tags from the source (lines 70 and 73). -/
def ListOptions.toFields (o : ListOptions) : List StructField :=
  [⟨"page,omitempty", .int o.Page⟩, ⟨"per_page,omitempty", .int o.PerPage⟩]

/-!
Rate-limit accessors (part_000 lines 216-232) and their stdlib
dependencies: `http.Header.Get`, `strconv.Atoi`, `strconv.ParseInt`,
`time.Unix`.
-/

/-- Canonicalization step of a MIME header key: uppercase at the start and
after '-', lowercase elsewhere. -/
def canonicalChars : List Char → Bool → List Char
  | [], _ => []
  | c :: rest, upper =>
    (if upper then c.toUpper else c.toLower) :: canonicalChars rest (c == '-')

/-- Model of `textproto.CanonicalMIMEHeaderKey`, restricted to keys of
letters, digits and '-' (other keys are returned unchanged, as in Go). -/
def canonicalMIMEHeaderKey (s : String) : String :=
  if s.data.all (fun c => c.isAlphanum || c == '-') then
    String.mk (canonicalChars s.data true)
  else s

/-- Model of `http.Header.Get`: the first stored value whose key matches the
requested key after canonicalization, or "" when there is none. -/
def headerGet (h : List (String × String)) (key : String) : String :=
  match h.find? (fun kv => canonicalMIMEHeaderKey kv.1 == canonicalMIMEHeaderKey key) with
  | some kv => kv.2
  | none => ""

/-- Parse of a nonempty all-digit character list; none on the empty list or
any non-digit (strconv's ErrSyntax cases after the sign). -/
def parseDigits (l : List Char) : Option Nat :=
  if l.isEmpty then none
  else if l.all (fun c => c.isDigit) then
    some (l.foldl (fun a c => a * 10 + (c.toNat - 48)) 0)
  else none

/-- Sign handling of `strconv.ParseInt`: strip one leading '+' or '-',
reporting whether the number is negative. -/
def signSplit : List Char → Bool × List Char
  | '+' :: rest => (false, rest)
  | '-' :: rest => (true, rest)
  | l => (false, l)

/-- Value component of `strconv.ParseInt(s, 10, 64)`, whose error the
rate-limit accessors discard: 0 on a syntax error (empty string, bare sign,
any non-digit), the clamped 64-bit bound on a range overflow. -/
def goParseInt64 (s : String) : Int :=
  let sp := signSplit s.data
  match parseDigits sp.2 with
  | some n =>
    if sp.1 then (if n ≤ 2 ^ 63 then -(n : Int) else -(2 ^ 63))
    else (if n ≤ 2 ^ 63 - 1 then (n : Int) else 2 ^ 63 - 1)
  | none => 0

/-- Value component of `strconv.Atoi`, which on a 64-bit platform equals
`ParseInt(s, 10, 64)` converted to int. -/
def goAtoi (s : String) : Int := goParseInt64 s

/-- A `time.Time` identified by its Unix seconds (every construction in this
code passes zero nanoseconds). -/
structure GoTime where
  unixSec : Int
deriving DecidableEq

/-- Model of `time.Unix(sec, 0)`. -/
def timeUnix (sec : Int) : GoTime := ⟨sec⟩

/-- Response (part_000 lines 208-214): the wrapped HTTP response plus the
optional pagination block. -/
structure Response where
  httpResponse : HttpResponse
  pagination : Option Pagination := none

/-- RateLimit (part_000 lines 217-220). -/
def Response.RateLimit (r : Response) : Int :=
  goAtoi (headerGet r.httpResponse.header "X-RateLimit-Limit")

/-- RateLimitRemaining (part_000 lines 223-226). -/
def Response.RateLimitRemaining (r : Response) : Int :=
  goAtoi (headerGet r.httpResponse.header "X-RateLimit-Remaining")

/-- RateLimitReset (part_000 lines 229-232). -/
def Response.RateLimitReset (r : Response) : GoTime :=
  timeUnix (goParseInt64 (headerGet r.httpResponse.header "X-RateLimit-Reset"))

/-!
Credentials (the `dnsimple` credentials source concatenated into
src/vendor/.../webhook/events.go, lines 84-154 of that file) and the
`encoding/base64` StdEncoding model.  Go strings are byte sequences; the
credential fields and header values are modelled as byte lists, with
`asciiBytes` turning an ASCII Lean literal into its bytes.
-/

/-- Bytes of an ASCII string literal. -/
def asciiBytes (s : String) : List Nat := s.data.map Char.toNat

/-- StdEncoding alphabet bytes. -/
def base64Alphabet : List Nat :=
  asciiBytes "ABCDEFGHIJKLMNOPQRSTUVWXYZabcdefghijklmnopqrstuvwxyz0123456789+/"

/-- Alphabet byte for a 6-bit group. -/
def b64idx (i : Nat) : Nat := base64Alphabet.getD i 65

/-- Model of `base64.StdEncoding.EncodeToString` on bytes: groups of three
bytes map to four alphabet bytes, the final group padded with '=' (byte 61). -/
def b64encode : List Nat → List Nat
  | b1 :: b2 :: b3 :: rest =>
    b64idx (b1 / 4) :: b64idx (b1 % 4 * 16 + b2 / 16) ::
      b64idx (b2 % 16 * 4 + b3 / 64) :: b64idx (b3 % 64) :: b64encode rest
  | [b1, b2] => [b64idx (b1 / 4), b64idx (b1 % 4 * 16 + b2 / 16), b64idx (b2 % 16 * 4), 61]
  | [b1] => [b64idx (b1 / 4), b64idx (b1 % 4 * 16), 61, 61]
  | [] => []

/-- Index of a byte in the StdEncoding alphabet. -/
def b64val (b : Nat) : Option Nat := base64Alphabet.findIdx? (fun x => x == b)

/-- Base64 decoding (StdEncoding): four alphabet bytes back to three bytes,
with '='-padding closing the input. -/
def b64decode : List Nat → Option (List Nat)
  | [] => some []
  | w :: x :: y :: z :: rest =>
    match b64val w, b64val x with
    | some a, some b =>
      if y == 61 then
        if z == 61 && rest.isEmpty then some [a * 4 + b / 16] else none
      else
        match b64val y with
        | some c =>
          if z == 61 then
            if rest.isEmpty then some [a * 4 + b / 16, b % 16 * 16 + c / 4] else none
          else
            match b64val z with
            | some d =>
              match b64decode rest with
              | some tail => some ((a * 4 + b / 16) :: (b % 16 * 16 + c / 4) :: (c % 4 * 64 + d) :: tail)
              | none => none
            | none => none
        | none => none
    | _, _ => none
  | _ => none

/-- Header-name constants (credentials source lines 91-95 of the
concatenated file). -/
def httpHeaderDomainToken : List Nat := asciiBytes "X-DNSimple-Domain-Token"

/-- Authorization header-name constant. -/
def httpHeaderAuthorization : List Nat := asciiBytes "Authorization"

/-- Domain-token credentials (lines 107-109). -/
structure domainTokenCredentials where
  domainToken : List Nat

/-- HttpHeader of the domain-token variant (lines 116-118). -/
def domainTokenCredentials.HttpHeader (c : domainTokenCredentials) : List Nat × List Nat :=
  (httpHeaderDomainToken, c.domainToken)

/-- HTTP basic credentials (lines 122-125). -/
structure httpBasicCredentials where
  email : List Nat
  password : List Nat

/-- basicAuth (lines 136-139): base64 of "email:password". -/
def basicAuth (username password : List Nat) : List Nat :=
  b64encode (username ++ asciiBytes ":" ++ password)

/-- HttpHeader of the basic variant (lines 132-134). -/
def httpBasicCredentials.HttpHeader (c : httpBasicCredentials) : List Nat × List Nat :=
  (httpHeaderAuthorization, asciiBytes "Basic " ++ basicAuth c.email c.password)

/-- OAuth token credentials (lines 143-145). -/
structure oauthTokenCredentials where
  oauthToken : List Nat

/-- HttpHeader of the bearer variant (lines 152-154), `fmt.Sprintf("Bearer %v", token)`. -/
def oauthTokenCredentials.HttpHeader (c : oauthTokenCredentials) : List Nat × List Nat :=
  (httpHeaderAuthorization, asciiBytes "Bearer " ++ c.oauthToken)

end Dnsimple

namespace Webhook

/-- Modelled from the spec: the `dnsimple.Domain` struct is not under src/
(only its use in events.go is); the spec says domain events carry "a domain
resource" decoded from the payload's `domain` object, so the model keeps the
decoded object's members. -/
structure Domain where
  members : List (String × Json)

/-- Modelled from the spec: the `Event_Header` struct embedded by every
event shape is not under src/; per the spec the header carries the
event-name field of the inbound JSON body (json key "name") and retains the
original raw payload bytes (the unexported `payload` field assigned by each
`parse`). -/
structure Event_Header where
  name : String := ""
  payload : Payload := .malformed ""

/-- GenericEvent (events.go lines 33-36): the event header plus an untyped
`Data interface{}` member (json key "data"), which holds any JSON value and
is nil (null) until decoded. -/
structure GenericEvent where
  header : Event_Header := {}
  Data : Json := .null

/-- DomainEvent (events.go lines 51-55): the event header plus the
`Domain *dnsimple.Domain` member (json key "domain").  The source's
`Data *DomainEvent` field is initialised to the event itself
(`e.payload, e.Data = payload, e`, line 63), so the struct behind `data` IS
the event: decoding a `data` object merges that object's members into the
event itself.  The model therefore carries no separate Data field and
decodes `data` members by recursive merging. -/
structure DomainEvent where
  header : Event_Header := {}
  Domain : Option Webhook.Domain := none

/-- WebhookEvent (events.go lines 70-73), with the same `Data` self-aliasing
(`e.payload, e.Data = payload, e`, line 81). -/
structure WebhookEvent where
  header : Event_Header := {}

/-- One member of a JSON object decoded into `GenericEvent`
(`json.Unmarshal` semantics over the modelled header): `name` must be a
string (null leaves it alone), `data` takes any value, unknown keys are
ignored. -/
def genericStep (e : GenericEvent) (k : String) (v : Json) : Except String GenericEvent :=
  if k == "name" then
    match v with
    | .str s => .ok { e with header := { e.header with name := s } }
    | .null => .ok e
    | _ => .error "json: cannot unmarshal value into field name of type string"
  else if k == "data" then
    .ok { e with Data := v }
  else
    .ok e

/-- Members of a JSON object decoded in order into `GenericEvent`. -/
def genericApply : GenericEvent → List (String × Json) → Except String GenericEvent
  | e, [] => .ok e
  | e, kv :: rest =>
    match genericStep e kv.1 kv.2 with
    | .ok e2 => genericApply e2 rest
    | .error err => .error err

/-- Modelled from the spec: `unmashalEvent` is not under src/; per the spec
the selected shape "is then populated by decoding rawPayload as JSON into
it", i.e. `json.Unmarshal(payload, event)`: malformed bytes are a decode
error, the document must be an object, and its members decode in order. -/
def unmarshalGeneric (e : GenericEvent) (p : Payload) : Except String GenericEvent :=
  match p with
  | .malformed _ => .error "invalid character in JSON input"
  | .json (.obj kvs) => genericApply e kvs
  | .json _ => .error "json: cannot unmarshal value into type GenericEvent"

/-- GenericEvent.parse (events.go lines 38-41): retain the payload, then
unmarshal into the event; the (partially filled) event is kept even when
unmarshalling fails. -/
def GenericEvent.parse (payload : Payload) : GenericEvent × Option String :=
  match unmarshalGeneric { header := { payload := payload } } payload with
  | .ok e => (e, none)
  | .error err => ({ header := { payload := payload } }, some err)

mutual

/-- Members of a JSON object decoded in order into `DomainEvent`: `name`
must be a string, `domain` an object (decoded as `Domain`) or null (a nil
pointer), a `data` member merges recursively into the event itself because
`Data` aliases the event; unknown keys are ignored, the first error stops
the decode. -/
def domainApply : DomainEvent → List (String × Json) → Except String DomainEvent
  | e, [] => .ok e
  | e, (k, v) :: rest =>
    if k == "name" then
      match v with
      | .str s => domainApply { e with header := { e.header with name := s } } rest
      | .null => domainApply e rest
      | _ => .error "json: cannot unmarshal value into field name of type string"
    else if k == "domain" then
      match v with
      | .obj kvs2 => domainApply { e with Domain := some ⟨kvs2⟩ } rest
      | .null => domainApply { e with Domain := none } rest
      | _ => .error "json: cannot unmarshal value into field domain of type Domain"
    else if k == "data" then
      match domainData e v with
      | .ok e2 => domainApply e2 rest
      | .error err => .error err
    else
      domainApply e rest

/-- Value of a `data` member merged into a `DomainEvent`: an object merges
member by member, a null sets the aliasing pointer to nil (no content
change), anything else is a type mismatch. -/
def domainData : DomainEvent → Json → Except String DomainEvent
  | e, .obj kvs2 => domainApply e kvs2
  | e, .null => .ok e
  | _, _ => .error "json: cannot unmarshal value into field data of type DomainEvent"

end

/-- Modelled from the spec, as `unmarshalGeneric`: `json.Unmarshal` into a
`DomainEvent`. -/
def unmarshalDomain (e : DomainEvent) (p : Payload) : Except String DomainEvent :=
  match p with
  | .malformed _ => .error "invalid character in JSON input"
  | .json (.obj kvs) => domainApply e kvs
  | .json _ => .error "json: cannot unmarshal value into type DomainEvent"

/-- DomainEvent.parse (events.go lines 62-65): retain the payload (and alias
Data to the event), then unmarshal into the event. -/
def DomainEvent.parse (payload : Payload) : DomainEvent × Option String :=
  match unmarshalDomain { header := { payload := payload } } payload with
  | .ok e => (e, none)
  | .error err => ({ header := { payload := payload } }, some err)

mutual

/-- Members of a JSON object decoded in order into `WebhookEvent`: as
`domainApply` without the `domain` member. -/
def webhookApply : WebhookEvent → List (String × Json) → Except String WebhookEvent
  | e, [] => .ok e
  | e, (k, v) :: rest =>
    if k == "name" then
      match v with
      | .str s => webhookApply { e with header := { e.header with name := s } } rest
      | .null => webhookApply e rest
      | _ => .error "json: cannot unmarshal value into field name of type string"
    else if k == "data" then
      match webhookData e v with
      | .ok e2 => webhookApply e2 rest
      | .error err => .error err
    else
      webhookApply e rest

/-- Value of a `data` member merged into a `WebhookEvent`, as `domainData`. -/
def webhookData : WebhookEvent → Json → Except String WebhookEvent
  | e, .obj kvs2 => webhookApply e kvs2
  | e, .null => .ok e
  | _, _ => .error "json: cannot unmarshal value into field data of type WebhookEvent"

end

/-- Modelled from the spec, as `unmarshalGeneric`: `json.Unmarshal` into a
`WebhookEvent`. -/
def unmarshalWebhook (e : WebhookEvent) (p : Payload) : Except String WebhookEvent :=
  match p with
  | .malformed _ => .error "invalid character in JSON input"
  | .json (.obj kvs) => webhookApply e kvs
  | .json _ => .error "json: cannot unmarshal value into type WebhookEvent"

/-- WebhookEvent.parse (events.go lines 80-83). -/
def WebhookEvent.parse (payload : Payload) : WebhookEvent × Option String :=
  match unmarshalWebhook { header := { payload := payload } } payload with
  | .ok e => (e, none)
  | .error err => ({ header := { payload := payload } }, some err)

/-- The `Event` interface value `switchEvent` returns: one of the three
concrete shapes. -/
inductive Event where
  | generic (e : GenericEvent) : Event
  | domain (e : DomainEvent) : Event
  | webhook (e : WebhookEvent) : Event

/-- The retained payload of whichever shape an event value is. -/
def Event.payloadOf : Event → Payload
  | .generic e => e.header.payload
  | .domain e => e.header.payload
  | .webhook e => e.header.payload

/-- The five event names switched to `DomainEvent` (events.go lines 11-20). -/
def domainEventNames : List String :=
  ["domain.create", "domain.delete", "domain.token_reset",
   "domain.auto_renew_enable", "domain.auto_renew_disable"]

/-- switchEvent (events.go lines 7-28): the event-name string selects the
shape (the five domain lifecycle names, webhook.create, or the generic
fallback), then the selected shape parses the payload.  The Go function
returns `(event, event.parse(payload))`: the interface value is always
non-nil, modelled as `some`, next to the parse error. -/
def switchEvent (name : String) (payload : Payload) : Option Event × Option String :=
  if name == "domain.create" || name == "domain.delete" || name == "domain.token_reset"
      || name == "domain.auto_renew_enable" || name == "domain.auto_renew_disable" then
    (some (Event.domain (DomainEvent.parse payload).1), (DomainEvent.parse payload).2)
  else if name == "webhook.create" then
    (some (Event.webhook (WebhookEvent.parse payload).1), (WebhookEvent.parse payload).2)
  else
    (some (Event.generic (GenericEvent.parse payload).1), (GenericEvent.parse payload).2)

end Webhook

namespace Dnsimple

/-- Decidable well-formedness of one error-body member for the purposes of
the claims: `message` values are strings, `pagination` values are objects of
numbers (or absent keys), and no member collides with the untagged embedded
`HttpResponse` field. -/
def errMemberOk (kv : String × Json) : Bool :=
  if kv.1 == "message" then
    match kv.2 with
    | .str _ => true
    | _ => false
  else if kv.1 == "pagination" then
    match kv.2 with
    | .obj kvs2 =>
      kvs2.all fun kv2 =>
        if kv2.1 == "current_page" || kv2.1 == "per_page" || kv2.1 == "total_pages" || kv2.1 == "total_entries" then
          match kv2.2 with
          | .num _ => true
          | _ => false
        else true
    | _ => false
  else
    kv.1 != "HttpResponse"

/-- Decidable well-formedness of an error body's members. -/
def errBodyOk (kvs : List (String × Json)) : Bool :=
  kvs.all errMemberOk

/-- Decidable absence of a header key: no stored key matches it after
canonicalization (`Header.Get` then returns ""). -/
def headerAbsent (h : List (String × String)) (key : String) : Bool :=
  h.all (fun kv => canonicalMIMEHeaderKey kv.1 != canonicalMIMEHeaderKey key)

/-- Decidable syntax-error predicate of `strconv.ParseInt(s, 10, 64)` (the
"non-numeric" header values of the spec): after the optional sign, the
digits fail to parse. -/
def goParseSyntaxErr (s : String) : Bool :=
  (parseDigits (signSplit s.data).2).isNone

end Dnsimple

namespace Webhook

/-- Decidable well-formedness of one domain-event payload member used by the
claims: a `name` member is a string, a `domain` member is an object, no
`data` member occurs (top-level `domain` then decides the Domain field),
anything else is ignored by the decoder. -/
def domainMemberOk (kv : String × Json) : Bool :=
  if kv.1 == "name" then
    match kv.2 with
    | .str _ => true
    | _ => false
  else if kv.1 == "domain" then
    match kv.2 with
    | .obj _ => true
    | _ => false
  else
    kv.1 != "data"

/-- Decidable well-formedness of a domain-event payload object. -/
def domainKvsOk (kvs : List (String × Json)) : Bool :=
  kvs.all domainMemberOk

/-- Decidable well-formedness of a generic-event payload member: a `name`
member is a string; every other member (`data` included) is accepted. -/
def genericMemberOk (kv : String × Json) : Bool :=
  if kv.1 == "name" then
    match kv.2 with
    | .str _ => true
    | _ => false
  else true

/-- Decidable well-formedness of a generic-event payload object. -/
def genericKvsOk (kvs : List (String × Json)) : Bool :=
  kvs.all genericMemberOk

end Webhook

/-- A key found by `lookupLast` is a member of the object. -/
theorem lookupLast_mem {key : String} {kvs : List (String × Json)} {r : Json}
    (h : lookupLast key kvs = some r) : (key, r) ∈ kvs := by
  induction kvs with
  | nil => simp [lookupLast] at h
  | cons kv rest ih =>
    obtain ⟨k, v⟩ := kv
    simp only [lookupLast] at h
    cases hcase : lookupLast key rest with
    | some r2 =>
      rw [hcase] at h
      simp only [Option.some.injEq] at h
      subst h
      exact List.mem_cons_of_mem _ (ih hcase)
    | none =>
      rw [hcase] at h
      by_cases hk : k == key
      · simp only [hk, if_true, Option.some.injEq] at h
        have hkey : k = key := by simpa using hk
        subst hkey; subst h
        exact List.mem_cons_self _ _
      · simp [hk] at h

namespace Webhook

/-- Unfolding equation of `domainApply` on a member list cell, proved by
reduction of the structural recursion. -/
theorem domainApply_cons (e : DomainEvent) (k : String) (v : Json)
    (rest : List (String × Json)) :
    domainApply e ((k, v) :: rest) =
      (if k == "name" then
        match v with
        | .str s => domainApply { e with header := { e.header with name := s } } rest
        | .null => domainApply e rest
        | _ => .error "json: cannot unmarshal value into field name of type string"
      else if k == "domain" then
        match v with
        | .obj kvs2 => domainApply { e with Domain := some ⟨kvs2⟩ } rest
        | .null => domainApply { e with Domain := none } rest
        | _ => .error "json: cannot unmarshal value into field domain of type Domain"
      else if k == "data" then
        match domainData e v with
        | .ok e2 => domainApply e2 rest
        | .error err => .error err
      else
        domainApply e rest) := rfl

/-- Unfolding equation of `webhookApply` on a member list cell. -/
theorem webhookApply_cons (e : WebhookEvent) (k : String) (v : Json)
    (rest : List (String × Json)) :
    webhookApply e ((k, v) :: rest) =
      (if k == "name" then
        match v with
        | .str s => webhookApply { e with header := { e.header with name := s } } rest
        | .null => webhookApply e rest
        | _ => .error "json: cannot unmarshal value into field name of type string"
      else if k == "data" then
        match webhookData e v with
        | .ok e2 => webhookApply e2 rest
        | .error err => .error err
      else
        webhookApply e rest) := rfl

end Webhook

namespace Dnsimple

/-- On a well-formed pagination object the decoder succeeds. -/
theorem paginationApply_ok (kvs : List (String × Json)) (p : Pagination)
    (h : kvs.all (fun kv2 =>
      if kv2.1 == "current_page" || kv2.1 == "per_page" || kv2.1 == "total_pages" || kv2.1 == "total_entries" then
        match kv2.2 with
        | .num _ => true
        | _ => false
      else true) = true) :
    ∃ q, paginationApply p kvs = .ok q := by
  induction kvs generalizing p with
  | nil => exact ⟨p, rfl⟩
  | cons kv rest ih =>
    simp only [List.all_cons, Bool.and_eq_true] at h
    obtain ⟨hkv, hrest⟩ := h
    obtain ⟨k, v⟩ := kv
    have hstep : ∃ p2, paginationStep p k v = .ok p2 := by
      simp only [paginationStep]
      by_cases h1 : k == "current_page"
      · simp only [h1, Bool.true_or, if_true] at hkv ⊢
        match v, hkv with
        | .num n, _ => exact ⟨_, rfl⟩
      · by_cases h2 : k == "per_page"
        · simp only [h1, h2, Bool.false_or, Bool.true_or, if_true, if_false] at hkv ⊢
          match v, hkv with
          | .num n, _ => exact ⟨_, rfl⟩
        · by_cases h3 : k == "total_pages"
          · simp only [h1, h2, h3, Bool.false_or, Bool.true_or, if_true, if_false] at hkv ⊢
            match v, hkv with
            | .num n, _ => exact ⟨_, rfl⟩
          · by_cases h4 : k == "total_entries"
            · simp only [h1, h2, h3, h4, Bool.false_or, Bool.true_or, if_true, if_false] at hkv ⊢
              match v, hkv with
              | .num n, _ => exact ⟨_, rfl⟩
            · simp [h1, h2, h3, h4]
    obtain ⟨p2, hp2⟩ := hstep
    obtain ⟨q, hq⟩ := ih p2 hrest
    exact ⟨q, by simp [paginationApply, hp2, hq]⟩

/-- On a well-formed error body the decoder succeeds, and its message is the
last `message` member when one is present. -/
theorem errorBodyApply_message (kvs : List (String × Json)) (e : ErrorBody)
    (h : errBodyOk kvs = true) :
    ∃ b, errorBodyApply e kvs = .ok b ∧
      b.Message = (match lookupLast "message" kvs with
        | some (.str s) => s
        | _ => e.Message) := by
  induction kvs generalizing e with
  | nil => exact ⟨e, rfl, rfl⟩
  | cons kv rest ih =>
    simp only [errBodyOk, List.all_cons, Bool.and_eq_true] at h
    obtain ⟨hkv, hrest⟩ := h
    obtain ⟨k, v⟩ := kv
    have hrest' : errBodyOk rest = true := hrest
    -- the last message member of `rest`, when one exists, is a string
    have hstrrest : ∀ r, lookupLast "message" rest = some r → ∃ s, r = .str s := by
      intro r hr
      have hmem := lookupLast_mem hr
      have := List.all_eq_true.mp hrest _ hmem
      simp only [errMemberOk, beq_self_eq_true, if_true] at this
      match r, this with
      | .str s, _ => exact ⟨s, rfl⟩
    unfold errMemberOk at hkv
    by_cases h1 : k == "message"
    · simp only [h1, if_true] at hkv
      match v, hkv with
      | .str s, _ =>
        obtain ⟨b, hb, hm⟩ := ih { e with Message := s } hrest'
        refine ⟨b, ?_, ?_⟩
        · simp only [errorBodyApply, errorBodyStep.eq_def, h1, if_true]
          exact hb
        · rw [hm]
          have hk : k = "message" := by simpa using h1
          simp only [lookupLast, hk, beq_self_eq_true, if_true]
          match hcase : lookupLast "message" rest with
          | some r =>
            obtain ⟨s2, rfl⟩ := hstrrest r hcase
            simp
          | none => simp
    · by_cases h2 : k == "pagination"
      · simp only [h1, h2, if_false, if_true] at hkv
        match v, hkv with
        | .obj kvs2, hv =>
          obtain ⟨q, hq⟩ := paginationApply_ok kvs2 {} hv
          obtain ⟨b, hb, hm⟩ := ih { e with Pagination := some q } hrest'
          refine ⟨b, ?_, ?_⟩
          · simp only [errorBodyApply, errorBodyStep.eq_def, h1, h2, Bool.false_eq_true, if_false, if_true, hq]
            exact hb
          · rw [hm]
            have hk : (k == "message") = false := by simpa using h1
            simp only [lookupLast, hk, if_false]
            match hcase : lookupLast "message" rest with
            | some r =>
              obtain ⟨s2, rfl⟩ := hstrrest r hcase
              simp
            | none => simp
      · have h3 : (k == "HttpResponse") = false := by
          simp only [h1, h2, if_false] at hkv
          simpa using hkv
        obtain ⟨b, hb, hm⟩ := ih e hrest'
        refine ⟨b, ?_, ?_⟩
        · simp only [errorBodyApply, errorBodyStep.eq_def, h1, h2, h3, Bool.false_eq_true, if_false]
          exact hb
        · rw [hm]
          have hk : (k == "message") = false := by simpa using h1
          simp only [lookupLast, hk, if_false]
          match hcase : lookupLast "message" rest with
          | some r =>
            obtain ⟨s2, rfl⟩ := hstrrest r hcase
            simp
          | none => simp

end Dnsimple

namespace Dnsimple

/-- C1: for every HTTP response, `CheckResponse` reports success (nil error)
exactly when the status code lies in [200,299]; for every status code
outside that range with a JSON error body carrying a string `message`
member, it returns an `ErrorResponse` whose message equals that member and
which carries the response. -/
theorem C1_checkResponse_status_classification (resp : HttpResponse) :
    ((200 ≤ resp.statusCode ∧ resp.statusCode ≤ 299) ↔ CheckResponse resp = .ok)
    ∧ (∀ kvs m, ¬(200 ≤ resp.statusCode ∧ resp.statusCode ≤ 299) →
        resp.body = .json (.obj kvs) →
        errBodyOk kvs = true →
        lookupLast "message" kvs = some (.str m) →
        ∃ er, CheckResponse resp = .apiError er ∧ er.Message = m ∧ er.httpResponse = resp) := by
  constructor
  · constructor
    · intro h
      unfold CheckResponse
      rw [if_pos h]
    · intro h
      by_contra hc
      unfold CheckResponse at h
      rw [if_neg hc] at h
      cases hd : decodeErrorBody resp.body <;> rw [hd] at h <;> simp at h
  · intro kvs m hout hbody hok hmsg
    obtain ⟨b, hb, hbm⟩ := errorBodyApply_message kvs {} hok
    refine ⟨{ httpResponse := resp, pagination := b.Pagination, Message := b.Message }, ?_, ?_, rfl⟩
    · unfold CheckResponse
      rw [if_neg hout, hbody]
      simp only [decodeErrorBody]
      rw [hb]
    · rw [hbm, hmsg]

/-- Witness for C1: status 204 is success; status 404 with an error body
whose message member is "Record not found" yields an ErrorResponse with
that message. -/
theorem C1_checkResponse_status_classification_witness :
    ((200 : Int) ≤ 204 ∧ (204 : Int) ≤ 299)
    ∧ CheckResponse ⟨204, [], .malformed ""⟩ = .ok
    ∧ ¬((200 : Int) ≤ 404 ∧ (404 : Int) ≤ 299)
    ∧ ∃ er,
        CheckResponse ⟨404, [], .json (.obj [("message", .str "Record not found")])⟩ = .apiError er
        ∧ er.Message = "Record not found"
        ∧ er.httpResponse = ⟨404, [], .json (.obj [("message", .str "Record not found")])⟩ :=
  ⟨by decide,
   (C1_checkResponse_status_classification ⟨204, [], .malformed ""⟩).1.mp (by decide),
   by decide,
   (C1_checkResponse_status_classification
     ⟨404, [], .json (.obj [("message", .str "Record not found")])⟩).2
     [("message", .str "Record not found")] "Record not found" (by decide) rfl (by decide) rfl⟩

/-- C10: for a status code outside 200-299, a body that fails to decode into
the error-response shape makes `CheckResponse` return the decode error
itself; an ErrorResponse is produced only when the body decodes
successfully. -/
theorem C10_checkResponse_decode_error_passthrough (resp : HttpResponse) :
    (∀ err, ¬(200 ≤ resp.statusCode ∧ resp.statusCode ≤ 299) →
       decodeErrorBody resp.body = .error err →
       CheckResponse resp = .decodeFailure err)
    ∧ (∀ er, CheckResponse resp = .apiError er →
       decodeErrorBody resp.body = .ok { Message := er.Message, Pagination := er.pagination }) := by
  constructor
  · intro err hout hdec
    unfold CheckResponse
    rw [if_neg hout, hdec]
  · intro er her
    unfold CheckResponse at her
    by_cases h : 200 ≤ resp.statusCode ∧ resp.statusCode ≤ 299
    · rw [if_pos h] at her
      simp at her
    · rw [if_neg h] at her
      cases hd : decodeErrorBody resp.body with
      | ok b =>
        rw [hd] at her
        simp only [CheckResult.apiError.injEq] at her
        rw [← her]
      | error err2 =>
        rw [hd] at her
        simp at her

/-- Witness for C10: status 500 with a non-JSON body returns the decode
error, not an ApiError. -/
theorem C10_checkResponse_decode_error_passthrough_witness :
    ¬((200 : Int) ≤ 500 ∧ (500 : Int) ≤ 299)
    ∧ decodeErrorBody (.malformed "oops") = .error "invalid JSON body"
    ∧ CheckResponse ⟨500, [], .malformed "oops"⟩ = .decodeFailure "invalid JSON body" :=
  ⟨by decide, rfl,
   (C10_checkResponse_decode_error_passthrough ⟨500, [], .malformed "oops"⟩).1
     "invalid JSON body" (by decide) rfl⟩

end Dnsimple

namespace Dnsimple

/-- The alphabet index of an encoded 6-bit group decodes back to it. -/
theorem b64val_b64idx : ∀ i, i < 64 → b64val (b64idx i) = some i := by decide

/-- No alphabet byte is the padding byte '=' (61). -/
theorem b64idx_ne_pad : ∀ i, i < 64 → (b64idx i == 61) = false := by decide

/-- Decoding step for a full (unpadded) group of four alphabet bytes. -/
theorem b64decode_group (w x y z : Nat) (rest : List Nat) (a b c d : Nat)
    (hw : b64val w = some a) (hx : b64val x = some b)
    (hy : b64val y = some c) (hz : b64val z = some d)
    (hy61 : (y == 61) = false) (hz61 : (z == 61) = false) :
    b64decode (w :: x :: y :: z :: rest) =
      (b64decode rest).map
        (fun tail => (a * 4 + b / 16) :: (b % 16 * 16 + c / 4) :: (c % 4 * 64 + d) :: tail) := by
  simp only [b64decode, hw, hx, hy, hz, hy61, hz61, Bool.false_eq_true, if_false]
  cases b64decode rest <;> simp

/-- Base64 round trip: decoding an encoding recovers the original bytes. -/
theorem b64decode_b64encode (l : List Nat) (h : ∀ b ∈ l, b < 256) :
    b64decode (b64encode l) = some l := by
  have main : ∀ n (l : List Nat), l.length ≤ n → (∀ b ∈ l, b < 256) →
      b64decode (b64encode l) = some l := by
    intro n
    induction n with
    | zero =>
      intro l hl _
      match l with
      | [] => rfl
    | succ n ih =>
      intro l hl h
      match l with
      | [] => rfl
      | [b1] =>
        have hb1 : b1 < 256 := h _ (by simp)
        have h1 : b1 / 4 < 64 := by omega
        have h2 : b1 % 4 * 16 < 64 := by omega
        simp only [b64encode, b64decode, b64val_b64idx _ h1, b64val_b64idx _ h2,
          beq_self_eq_true, if_true, List.isEmpty_nil, Bool.and_true, Option.some.injEq,
          List.cons.injEq, and_true]
        omega
      | [b1, b2] =>
        have hb1 : b1 < 256 := h _ (by simp)
        have hb2 : b2 < 256 := h _ (by simp)
        have h1 : b1 / 4 < 64 := by omega
        have h2 : b1 % 4 * 16 + b2 / 16 < 64 := by omega
        have h3 : b2 % 16 * 4 < 64 := by omega
        have hy := b64idx_ne_pad _ h3
        simp only [b64encode, b64decode, b64val_b64idx _ h1, b64val_b64idx _ h2,
          b64val_b64idx _ h3, hy, Bool.false_eq_true, if_false, beq_self_eq_true, if_true,
          List.isEmpty_nil, Option.some.injEq, List.cons.injEq, and_true]
        omega
      | b1 :: b2 :: b3 :: rest =>
        have hb1 : b1 < 256 := h _ (by simp)
        have hb2 : b2 < 256 := h _ (by simp)
        have hb3 : b3 < 256 := h _ (by simp)
        have h1 : b1 / 4 < 64 := by omega
        have h2 : b1 % 4 * 16 + b2 / 16 < 64 := by omega
        have h3 : b2 % 16 * 4 + b3 / 64 < 64 := by omega
        have h4 : b3 % 64 < 64 := by omega
        have hrest : b64decode (b64encode rest) = some rest := by
          refine ih rest ?_ ?_
          · simp only [List.length_cons] at hl
            omega
          · intro b hb
            exact h b (by simp [hb])
        rw [b64encode, b64decode_group _ _ _ _ _ _ _ _ _
          (b64val_b64idx _ h1) (b64val_b64idx _ h2) (b64val_b64idx _ h3) (b64val_b64idx _ h4)
          (b64idx_ne_pad _ h3) (b64idx_ne_pad _ h4), hrest]
        simp only [Option.map_some', Option.some.injEq, List.cons.injEq]
        refine ⟨by omega, by omega, by omega, trivial⟩
  exact main l.length l (le_refl _) h

/-- C7: each credential variant's HttpHeader is the documented pair, and the
basic-auth base64 value decodes back to "email:password". -/
theorem C7_credentials_httpHeader (t e p : List Nat) :
    domainTokenCredentials.HttpHeader ⟨t⟩ = (asciiBytes "X-DNSimple-Domain-Token", t)
    ∧ httpBasicCredentials.HttpHeader ⟨e, p⟩ =
        (asciiBytes "Authorization",
          asciiBytes "Basic " ++ b64encode (e ++ asciiBytes ":" ++ p))
    ∧ ((∀ b ∈ e ++ asciiBytes ":" ++ p, b < 256) →
        b64decode (b64encode (e ++ asciiBytes ":" ++ p)) = some (e ++ asciiBytes ":" ++ p))
    ∧ oauthTokenCredentials.HttpHeader ⟨t⟩ =
        (asciiBytes "Authorization", asciiBytes "Bearer " ++ t) :=
  ⟨rfl, rfl, fun h => b64decode_b64encode _ h, rfl⟩

/-- Witness for C7 at a concrete email and password (bytes of
"anthony@example.com" and "passwd"). -/
theorem C7_credentials_httpHeader_witness :
    (∀ b ∈ asciiBytes "anthony@example.com" ++ asciiBytes ":" ++ asciiBytes "passwd", b < 256)
    ∧ httpBasicCredentials.HttpHeader ⟨asciiBytes "anthony@example.com", asciiBytes "passwd"⟩ =
        (asciiBytes "Authorization",
          asciiBytes "Basic " ++ b64encode (asciiBytes "anthony@example.com:passwd"))
    ∧ b64decode (b64encode (asciiBytes "anthony@example.com" ++ asciiBytes ":" ++ asciiBytes "passwd"))
        = some (asciiBytes "anthony@example.com" ++ asciiBytes ":" ++ asciiBytes "passwd") :=
  ⟨by decide,
   (C7_credentials_httpHeader [] (asciiBytes "anthony@example.com") (asciiBytes "passwd")).2.1,
   (C7_credentials_httpHeader [] (asciiBytes "anthony@example.com") (asciiBytes "passwd")).2.2.1
     (by decide)⟩

end Dnsimple

namespace Dnsimple

/-- An absent header key makes `Header.Get` return the empty string. -/
theorem headerGet_of_absent (h : List (String × String)) (key : String)
    (ha : headerAbsent h key = true) : headerGet h key = "" := by
  unfold headerGet
  have hf : h.find? (fun kv => canonicalMIMEHeaderKey kv.1 == canonicalMIMEHeaderKey key) = none := by
    rw [List.find?_eq_none]
    intro kv hkv
    have := List.all_eq_true.mp ha kv hkv
    simpa using this
  rw [hf]

/-- A syntax error makes the parsed int value zero. -/
theorem goParseInt64_of_syntaxErr (s : String) (hs : goParseSyntaxErr s = true) :
    goParseInt64 s = 0 := by
  unfold goParseSyntaxErr at hs
  unfold goParseInt64
  cases hp : parseDigits (signSplit s.data).2 with
  | some n => rw [hp] at hs; simp at hs
  | none => simp only [hp]

/-- C8: with the documented header values the rate-limit accessors return
2400, 2399 and the time of epoch second 1400000000; with a missing or
non-numeric header value each accessor returns its zero / zero-epoch
default. -/
theorem C8_rate_limit_accessors (r : Response) :
    (headerGet r.httpResponse.header "X-RateLimit-Limit" = "2400" → r.RateLimit = 2400)
    ∧ (headerGet r.httpResponse.header "X-RateLimit-Remaining" = "2399" → r.RateLimitRemaining = 2399)
    ∧ (headerGet r.httpResponse.header "X-RateLimit-Reset" = "1400000000" →
        r.RateLimitReset = timeUnix 1400000000)
    ∧ (headerAbsent r.httpResponse.header "X-RateLimit-Limit" = true → r.RateLimit = 0)
    ∧ (headerAbsent r.httpResponse.header "X-RateLimit-Remaining" = true → r.RateLimitRemaining = 0)
    ∧ (headerAbsent r.httpResponse.header "X-RateLimit-Reset" = true → r.RateLimitReset = timeUnix 0)
    ∧ (goParseSyntaxErr (headerGet r.httpResponse.header "X-RateLimit-Limit") = true → r.RateLimit = 0)
    ∧ (goParseSyntaxErr (headerGet r.httpResponse.header "X-RateLimit-Remaining") = true →
        r.RateLimitRemaining = 0)
    ∧ (goParseSyntaxErr (headerGet r.httpResponse.header "X-RateLimit-Reset") = true →
        r.RateLimitReset = timeUnix 0) := by
  refine ⟨?_, ?_, ?_, ?_, ?_, ?_, ?_, ?_, ?_⟩
  · intro hv
    unfold Response.RateLimit
    rw [hv]
    rfl
  · intro hv
    unfold Response.RateLimitRemaining
    rw [hv]
    rfl
  · intro hv
    unfold Response.RateLimitReset
    rw [hv]
    rfl
  · intro ha
    unfold Response.RateLimit
    rw [headerGet_of_absent _ _ ha]
    rfl
  · intro ha
    unfold Response.RateLimitRemaining
    rw [headerGet_of_absent _ _ ha]
    rfl
  · intro ha
    unfold Response.RateLimitReset
    rw [headerGet_of_absent _ _ ha]
    rfl
  · intro hs
    unfold Response.RateLimit goAtoi
    rw [goParseInt64_of_syntaxErr _ hs]
  · intro hs
    unfold Response.RateLimitRemaining goAtoi
    rw [goParseInt64_of_syntaxErr _ hs]
  · intro hs
    unfold Response.RateLimitReset
    rw [goParseInt64_of_syntaxErr _ hs]

/-- Witness for C8 at concrete headers: the documented triple of values on
one response, no headers on a second, a non-numeric value on a third. -/
theorem C8_rate_limit_accessors_witness :
    (Response.RateLimit ⟨⟨200, [("X-RateLimit-Limit", "2400"), ("X-RateLimit-Remaining", "2399"), ("X-RateLimit-Reset", "1400000000")], .malformed ""⟩, none⟩ = 2400
      ∧ Response.RateLimitRemaining ⟨⟨200, [("X-RateLimit-Limit", "2400"), ("X-RateLimit-Remaining", "2399"), ("X-RateLimit-Reset", "1400000000")], .malformed ""⟩, none⟩ = 2399
      ∧ Response.RateLimitReset ⟨⟨200, [("X-RateLimit-Limit", "2400"), ("X-RateLimit-Remaining", "2399"), ("X-RateLimit-Reset", "1400000000")], .malformed ""⟩, none⟩ = timeUnix 1400000000)
    ∧ (Response.RateLimit ⟨⟨200, [], .malformed ""⟩, none⟩ = 0
      ∧ Response.RateLimitRemaining ⟨⟨200, [], .malformed ""⟩, none⟩ = 0
      ∧ Response.RateLimitReset ⟨⟨200, [], .malformed ""⟩, none⟩ = timeUnix 0)
    ∧ Response.RateLimit ⟨⟨200, [("X-RateLimit-Limit", "not a number")], .malformed ""⟩, none⟩ = 0 :=
  ⟨⟨(C8_rate_limit_accessors _).1 (by decide),
    (C8_rate_limit_accessors _).2.1 (by decide),
    (C8_rate_limit_accessors _).2.2.1 (by decide)⟩,
   ⟨(C8_rate_limit_accessors _).2.2.2.1 (by decide),
    (C8_rate_limit_accessors _).2.2.2.2.1 (by decide),
    (C8_rate_limit_accessors _).2.2.2.2.2.1 (by decide)⟩,
   (C8_rate_limit_accessors _).2.2.2.2.2.2.1 (by decide)⟩

end Dnsimple

namespace Dnsimple

/-- C9: a path that URL parsing rejects makes `addURLQueryOptions` return
the parse error together with the original, unmodified path, for every
non-nil options bundle. -/
theorem C9_parse_error_returns_original_path (path : String) (fields : List StructField)
    (err : String) (h : parseURL path = .error err) :
    addURLQueryOptions path (some fields) = (path, some err) := by
  unfold addURLQueryOptions
  rw [h]

/-- Witness for C9: "%zz" is the invalid-escape parse error of net/url, and
encoding it with a pagination bundle returns "%zz" with the error. -/
theorem C9_parse_error_returns_original_path_witness :
    parseURL "%zz" = .error "invalid URL escape"
    ∧ addURLQueryOptions "%zz" (some (ListOptions.toFields ⟨2, 50⟩))
        = ("%zz", some "invalid URL escape") :=
  ⟨rfl, C9_parse_error_returns_original_path "%zz" (ListOptions.toFields ⟨2, 50⟩)
    "invalid URL escape" rfl⟩

end Dnsimple

namespace Dnsimple

/-- C5 as stated is false on the code: a field whose url tag has no
omitempty flag is included even at its default (zero) value.  Concretely, a
bundle with the single field `url:"page"` of value int 0 contributes
page=0 although 0 is the default int value. -/
theorem C5_counterexample :
    isEmptyValue (.int 0) = true
    ∧ fieldParam ⟨"page", .int 0⟩ = some ("page", "0")
    ∧ addURLQueryOptions "" (some [⟨"page", .int 0⟩]) = ("?page=0", none) :=
  ⟨rfl, rfl, rfl⟩

/-- C5 amended: a field is included as a query parameter exactly when its
url tag is nonempty and not "-" and, in case the tag carries the omitempty
flag (as both fields of this repository's only bundle, ListOptions, do),
its value is non-default for its type; the parameter uses the tag's name
and the value's printed form. -/
theorem C5_field_inclusion_amended (sf : StructField) :
    (fieldParam sf = none ↔
      (sf.tag = "" ∨ sf.tag = "-" ∨
        (optionsContains ((splitAll ',' sf.tag.data).map String.mk).tail "omitempty" = true
          ∧ isEmptyValue sf.value = true)))
    ∧ (∀ k v, fieldParam sf = some (k, v) →
        k = ((splitAll ',' sf.tag.data).map String.mk).headD "" ∧ v = goSprint sf.value)
    ∧ (fieldParam sf = none → addURLQueryOptions "" (some [sf]) = ("", none))
    ∧ (∀ k v, fieldParam sf = some (k, v) →
        addURLQueryOptions "" (some [sf])
          = ("?" ++ (goQueryEscape k ++ "=" ++ goQueryEscape v), none)) := by
  refine ⟨?_, ?_, ?_, ?_⟩
  · by_cases h1 : sf.tag = ""
    · simp [fieldParam, h1]
    · by_cases h2 : sf.tag = "-"
      · simp [fieldParam, h1, h2]
      · by_cases h3 : optionsContains ((splitAll ',' sf.tag.data).map String.mk).tail "omitempty" = true
          ∧ isEmptyValue sf.value = true
        · obtain ⟨hx, hy⟩ := h3
          simp [fieldParam, h1, h2, hx, hy]
        · have hb : (optionsContains ((splitAll ',' sf.tag.data).map String.mk).tail "omitempty"
              && isEmptyValue sf.value) = false := by
            by_cases hc : optionsContains ((splitAll ',' sf.tag.data).map String.mk).tail "omitempty" = true
            · by_cases hd : isEmptyValue sf.value = true
              · exact absurd ⟨hc, hd⟩ h3
              · rw [Bool.not_eq_true] at hd
                simp [hd]
            · rw [Bool.not_eq_true] at hc
              simp [hc]
          simp [fieldParam, h1, h2, hb, h3]
  · intro k v h
    unfold fieldParam at h
    by_cases h1 : sf.tag = ""
    · simp [h1] at h
    · by_cases h2 : sf.tag = "-"
      · simp [h1, h2] at h
      · by_cases hb : (optionsContains ((splitAll ',' sf.tag.data).map String.mk).tail "omitempty"
            && isEmptyValue sf.value) = true
        · simp [h1, h2, hb] at h
        · rw [Bool.not_eq_true] at hb
          simp only [h1, h2, hb, if_false, beq_iff_eq, Bool.false_eq_true,
            Option.some.injEq, Prod.mk.injEq] at h
          exact ⟨h.1.symm, h.2.symm⟩
  · intro h
    unfold addURLQueryOptions
    simp only [List.foldl, h]
    rfl
  · intro k v h
    unfold addURLQueryOptions
    simp only [List.foldl, h]
    show (URL.toString ⟨[], false, (valuesEncode [(k, [v])]).data⟩, none) = _
    have henc : valuesEncode [(k, [v])] = goQueryEscape k ++ "=" ++ goQueryEscape v := rfl
    rw [henc]
    unfold URL.toString
    have hne : ((goQueryEscape k ++ "=" ++ goQueryEscape v).data.isEmpty) = false := by
      obtain ⟨lk⟩ := goQueryEscape k
      obtain ⟨lv⟩ := goQueryEscape v
      show ((String.mk lk ++ "=" ++ String.mk lv).data.isEmpty) = false
      show ((lk ++ '=' :: [] ++ lv).isEmpty) = false
      simp
    rw [hne]
    show ("" ++ ("?" ++ String.mk (goQueryEscape k ++ "=" ++ goQueryEscape v).data), none) = _
    generalize goQueryEscape k ++ "=" ++ goQueryEscape v = s
    obtain ⟨l⟩ := s
    rfl

/-- Witness for C5 amended: at the repository's ListOptions with page=0 the
field is omitted; with page=2 the parameter page=2 is produced. -/
theorem C5_field_inclusion_amended_witness :
    (fieldParam ⟨"page,omitempty", .int 0⟩ = none
      ∧ addURLQueryOptions "" (some [⟨"page,omitempty", .int 0⟩]) = ("", none))
    ∧ (fieldParam ⟨"page,omitempty", .int 2⟩ = some ("page", "2")
      ∧ addURLQueryOptions "" (some [⟨"page,omitempty", .int 2⟩]) = ("?page=2", none)) :=
  ⟨⟨rfl, (C5_field_inclusion_amended ⟨"page,omitempty", .int 0⟩).2.2.1 rfl⟩,
   ⟨rfl, by
      have h := (C5_field_inclusion_amended ⟨"page,omitempty", .int 2⟩).2.2.2 "page" "2" rfl
      rw [h]
      rfl⟩⟩

end Dnsimple

namespace Dnsimple

/-- A character of the path subset is not a given excluded character; the
subset excludes '?' and '%'. -/
theorem pathAllowed_ne_q {c : Char} (h : pathAllowed c = true) : (c == '?') = false := by
  by_cases hc : c = '?'
  · subst hc
    exact absurd h (by decide)
  · simp [hc]

/-- A path-subset character is not a percent sign. -/
theorem pathAllowed_ne_pct {c : Char} (h : pathAllowed c = true) : (c == '%') = false := by
  by_cases hc : c = '%'
  · subst hc
    exact absurd h (by decide)
  · simp [hc]

/-- A query-subset character is not a question mark. -/
theorem queryAllowed_ne_q {c : Char} (h : queryAllowed c = true) : (c == '?') = false := by
  by_cases hc : c = '?'
  · subst hc
    exact absurd h (by decide)
  · simp [hc]

/-- A query-subset character is not a percent sign. -/
theorem queryAllowed_ne_pct {c : Char} (h : queryAllowed c = true) : (c == '%') = false := by
  by_cases hc : c = '%'
  · subst hc
    exact absurd h (by decide)
  · simp [hc]

/-- Splitting at a separator that does not occur returns the whole list. -/
theorem splitAtFirst_no_sep (sep : Char) (l : List Char)
    (h : ∀ c ∈ l, (c == sep) = false) : splitAtFirst sep l = (l, none) := by
  induction l with
  | nil => rfl
  | cons c rest ih =>
    have hc := h c (by simp)
    simp only [splitAtFirst, hc, Bool.false_eq_true, if_false]
    rw [ih (fun x hx => h x (by simp [hx]))]

/-- Splitting at the first separator occurrence. -/
theorem splitAtFirst_append (sep : Char) (l r : List Char)
    (h : ∀ c ∈ l, (c == sep) = false) :
    splitAtFirst sep (l ++ sep :: r) = (l, some r) := by
  induction l with
  | nil =>
    rw [List.nil_append]
    simp [splitAtFirst.eq_def]
  | cons c rest ih =>
    have hc := h c (by simp)
    simp only [List.cons_append, splitAtFirst, hc, Bool.false_eq_true, if_false, List.append_eq]
    rw [ih (fun x hx => h x (by simp [hx]))]

/-- A list without percent signs passes the escape check. -/
theorem validEscapes_no_pct (l : List Char)
    (h : ∀ c ∈ l, (c == '%') = false) : validEscapes l = true := by
  induction l with
  | nil => rfl
  | cons c rest ih =>
    have hc := h c (by simp)
    rw [validEscapes.eq_def]
    simp only [hc, Bool.false_eq_true, if_false]
    exact ih (fun x hx => h x (by simp [hx]))

/-- The last element of a list without question marks is not '?'. -/
theorem getLast_not_q (l : List Char)
    (h : ∀ c ∈ l, (c == '?') = false) : (l.getLast? == some '?') = false := by
  cases hl : l.getLast? with
  | none => rfl
  | some c =>
    obtain ⟨hne, rfl⟩ := List.mem_getLast?_eq_getLast (l := l) (x := c) (by rw [hl]; rfl)
    have hm : l.getLast hne ∈ l := List.getLast_mem hne
    have := h _ hm
    simpa using this

/-- The double-slash check ignores a '?'-started suffix. -/
theorem swds_append_q (l x : List Char) (h : startsWithDoubleSlash l = false) :
    startsWithDoubleSlash (l ++ '?' :: x) = false := by
  have hq : (('?' : Char) == '/') = false := by decide
  match l with
  | [] =>
    rw [List.nil_append]
    cases x with
    | nil => rfl
    | cons b bs =>
      show (('?' : Char) == '/' && b == '/') = false
      rw [hq, Bool.false_and]
  | [a] =>
    show (a == '/' && ('?' == '/')) = false
    rw [hq, Bool.and_false]
  | a :: b :: rest =>
    exact h

/-- Model of url.Parse on a pure path of the safe subset: the path verbatim,
no query, no force flag. -/
theorem parseURL_safe (p : String) (hsafe : p.data.all pathAllowed = true)
    (hslash : startsWithDoubleSlash p.data = false) :
    parseURL p = .ok ⟨p.data, false, []⟩ := by
  have hq : ∀ c ∈ p.data, (c == '?') = false :=
    fun c hc => pathAllowed_ne_q (List.all_eq_true.mp hsafe c hc)
  have hpct : ∀ c ∈ p.data, (c == '%') = false :=
    fun c hc => pathAllowed_ne_pct (List.all_eq_true.mp hsafe c hc)
  unfold parseURL
  rw [getLast_not_q p.data hq]
  simp only [Bool.false_and, Bool.false_eq_true, if_false]
  rw [splitAtFirst_no_sep '?' p.data hq]
  unfold checkURL
  rw [validEscapes_no_pct p.data hpct]
  simp only [Option.getD_none, validEscapes, Bool.and_self, Bool.not_true, Bool.false_eq_true,
    if_false, List.all_nil]
  rw [hsafe, hslash]
  rfl

/-- Model of url.Parse on a safe path followed by "?" and a nonempty safe
query: it splits at the '?'. -/
theorem parseURL_safe_query (p q : String) (hsafe : p.data.all pathAllowed = true)
    (hslash : startsWithDoubleSlash p.data = false)
    (hq : q.data.all queryAllowed = true) (hqne : q.data ≠ []) :
    parseURL (p ++ "?" ++ q) = .ok ⟨p.data, false, q.data⟩ := by
  have hpq : ∀ c ∈ p.data, (c == '?') = false :=
    fun c hc => pathAllowed_ne_q (List.all_eq_true.mp hsafe c hc)
  have hppct : ∀ c ∈ p.data, (c == '%') = false :=
    fun c hc => pathAllowed_ne_pct (List.all_eq_true.mp hsafe c hc)
  have hqq : ∀ c ∈ q.data, (c == '?') = false :=
    fun c hc => queryAllowed_ne_q (List.all_eq_true.mp hq c hc)
  have hqpct : ∀ c ∈ q.data, (c == '%') = false :=
    fun c hc => queryAllowed_ne_pct (List.all_eq_true.mp hq c hc)
  have hdata : (p ++ "?" ++ q).data = p.data ++ '?' :: q.data := by
    rw [String.data_append, String.data_append]
    simp
  have hlast : ((p.data ++ '?' :: q.data).getLast? == some '?') = false := by
    rw [List.getLast?_append_cons]
    cases hql : q.data with
    | nil => exact absurd hql hqne
    | cons a as =>
      rw [List.getLast?_cons_cons]
      refine getLast_not_q (a :: as) ?_
      rw [← hql]
      exact hqq
  unfold parseURL
  rw [hdata, hlast]
  simp only [Bool.false_and, Bool.false_eq_true, if_false]
  rw [splitAtFirst_append '?' p.data q.data hpq]
  unfold checkURL
  simp only [Option.getD_some, validEscapes_no_pct p.data hppct,
    validEscapes_no_pct q.data hqpct, hsafe, hq, hslash, Bool.and_self, Bool.not_true,
    Bool.false_eq_true, if_false]

end Dnsimple

namespace Dnsimple

/-- Encoding a safe query-free path with zero ListOptions returns it
unchanged. -/
theorem addURL_listopts_zero (p : String) (hsafe : p.data.all pathAllowed = true)
    (hslash : startsWithDoubleSlash p.data = false) :
    addURLQueryOptions p (some (ListOptions.toFields ⟨0, 0⟩)) = (p, none) := by
  obtain ⟨l⟩ := p
  unfold addURLQueryOptions
  rw [parseURL_safe ⟨l⟩ hsafe hslash]
  show (URL.toString ⟨l, false, []⟩, none) = (String.mk l, none)
  unfold URL.toString
  show (String.mk l ++ "", none) = (String.mk l, none)
  rw [String.append_empty]

/-- Encoding a safe query-free path with page=2, per_page=50 appends the
canonical query. -/
theorem addURL_listopts_2_50 (p : String) (hsafe : p.data.all pathAllowed = true)
    (hslash : startsWithDoubleSlash p.data = false) :
    addURLQueryOptions p (some (ListOptions.toFields ⟨2, 50⟩))
      = (p ++ "?page=2&per_page=50", none) := by
  obtain ⟨l⟩ := p
  unfold addURLQueryOptions
  rw [parseURL_safe ⟨l⟩ hsafe hslash]
  rfl

/-- Re-encoding the result of `addURL_listopts_2_50` with the same options
appends the two parameters a second time. -/
theorem addURL_listopts_2_50_again (p : String) (hsafe : p.data.all pathAllowed = true)
    (hslash : startsWithDoubleSlash p.data = false) :
    addURLQueryOptions (p ++ "?page=2&per_page=50") (some (ListOptions.toFields ⟨2, 50⟩))
      = (p ++ "?page=2&page=2&per_page=50&per_page=50", none) := by
  have hq : ("page=2&per_page=50" : String).data.all queryAllowed = true := by decide
  have hqne : ("page=2&per_page=50" : String).data ≠ [] := by decide
  have hassoc : p ++ "?page=2&per_page=50" = p ++ "?" ++ "page=2&per_page=50" := by
    rw [String.append_assoc]
    rfl
  rw [hassoc]
  unfold addURLQueryOptions
  rw [parseURL_safe_query p "page=2&per_page=50" hsafe hslash hq hqne]
  obtain ⟨l⟩ := p
  rfl

end Dnsimple

namespace Dnsimple

/-- C6 as stated is false on the code: even with page=0 and per_page=0 the
encoder re-encodes an existing non-canonical query string, so the path is
not returned unchanged.  Concretely "/v2?b=2&a=1" becomes "/v2?a=1&b=2". -/
theorem C6_counterexample :
    addURLQueryOptions "/v2?b=2&a=1" (some (ListOptions.toFields ⟨0, 0⟩)) = ("/v2?a=1&b=2", none)
    ∧ ("/v2?a=1&b=2" : String) ≠ "/v2?b=2&a=1" :=
  ⟨rfl, by decide⟩

/-- C6 amended: with page=0 and per_page=0 the encoder adds no query
parameters, and returns the path unchanged provided its query string is
already in canonical encoded form (in particular whenever the path has no
query string, as stated here); in general it only re-encodes the existing
query canonically.  With page=2 and per_page=50 the result carries the
query page=2&per_page=50 (so it contains both parameters). -/
theorem C6_listOptions_query_encoding (p : String)
    (hsafe : p.data.all pathAllowed = true)
    (hslash : startsWithDoubleSlash p.data = false) :
    addURLQueryOptions p (some (ListOptions.toFields ⟨0, 0⟩)) = (p, none)
    ∧ addURLQueryOptions p (some (ListOptions.toFields ⟨2, 50⟩))
        = (p ++ "?page=2&per_page=50", none) :=
  ⟨addURL_listopts_zero p hsafe hslash, addURL_listopts_2_50 p hsafe hslash⟩

/-- Witness for C6 amended at the path "/v2/domains". -/
theorem C6_listOptions_query_encoding_witness :
    ("/v2/domains" : String).data.all pathAllowed = true
    ∧ startsWithDoubleSlash ("/v2/domains" : String).data = false
    ∧ addURLQueryOptions "/v2/domains" (some (ListOptions.toFields ⟨0, 0⟩)) = ("/v2/domains", none)
    ∧ addURLQueryOptions "/v2/domains" (some (ListOptions.toFields ⟨2, 50⟩))
        = ("/v2/domains?page=2&per_page=50", none) :=
  ⟨by decide, by decide,
   (C6_listOptions_query_encoding "/v2/domains" (by decide) (by decide)).1,
   by
    have h := (C6_listOptions_query_encoding "/v2/domains" (by decide) (by decide)).2
    rw [h]
    rfl⟩

/-- C2 as stated is false on the code: re-applying the encoder with the same
options appends the parameters again (url.Values.Add appends), duplicating
them.  Concretely, encoding "/v2/domains" with page=2, per_page=50 once
gives "/v2/domains?page=2&per_page=50"; encoding that result again with the
same options gives "/v2/domains?page=2&page=2&per_page=50&per_page=50". -/
theorem C2_counterexample :
    addURLQueryOptions "/v2/domains" (some (ListOptions.toFields ⟨2, 50⟩))
      = ("/v2/domains?page=2&per_page=50", none)
    ∧ addURLQueryOptions "/v2/domains?page=2&per_page=50" (some (ListOptions.toFields ⟨2, 50⟩))
      = ("/v2/domains?page=2&page=2&per_page=50&per_page=50", none)
    ∧ ("/v2/domains?page=2&page=2&per_page=50&per_page=50" : String)
        ≠ "/v2/domains?page=2&per_page=50" :=
  ⟨rfl, rfl, by decide⟩

/-- C2 amended: a second application with the same options appends the
option-derived parameters again instead of leaving the canonical query
unchanged — for a safe query-free path and page=2, per_page=50 the composed
result duplicates both parameters; the composition equals a single
application exactly when the options contribute no parameters (page=0 and
per_page=0). -/
theorem C2_encode_reapplication (p : String)
    (hsafe : p.data.all pathAllowed = true)
    (hslash : startsWithDoubleSlash p.data = false) :
    addURLQueryOptions
        (addURLQueryOptions p (some (ListOptions.toFields ⟨2, 50⟩))).1
        (some (ListOptions.toFields ⟨2, 50⟩))
      = (p ++ "?page=2&page=2&per_page=50&per_page=50", none)
    ∧ addURLQueryOptions
        (addURLQueryOptions p (some (ListOptions.toFields ⟨0, 0⟩))).1
        (some (ListOptions.toFields ⟨0, 0⟩))
      = addURLQueryOptions p (some (ListOptions.toFields ⟨0, 0⟩)) := by
  constructor
  · rw [addURL_listopts_2_50 p hsafe hslash]
    exact addURL_listopts_2_50_again p hsafe hslash
  · rw [addURL_listopts_zero p hsafe hslash]
    exact addURL_listopts_zero p hsafe hslash

/-- Witness for C2 amended at the path "/v2/domains". -/
theorem C2_encode_reapplication_witness :
    ("/v2/domains" : String).data.all pathAllowed = true
    ∧ startsWithDoubleSlash ("/v2/domains" : String).data = false
    ∧ addURLQueryOptions
        (addURLQueryOptions "/v2/domains" (some (ListOptions.toFields ⟨2, 50⟩))).1
        (some (ListOptions.toFields ⟨2, 50⟩))
      = ("/v2/domains?page=2&page=2&per_page=50&per_page=50", none)
    ∧ addURLQueryOptions
        (addURLQueryOptions "/v2/domains" (some (ListOptions.toFields ⟨0, 0⟩))).1
        (some (ListOptions.toFields ⟨0, 0⟩))
      = addURLQueryOptions "/v2/domains" (some (ListOptions.toFields ⟨0, 0⟩)) :=
  ⟨by decide, by decide,
   by
    have h := (C2_encode_reapplication "/v2/domains" (by decide) (by decide)).1
    rw [h]
    rfl,
   (C2_encode_reapplication "/v2/domains" (by decide) (by decide)).2⟩

end Dnsimple


namespace Webhook

/-- One generic decode step never touches the retained payload. -/
theorem genericStep_payload (e : GenericEvent) (k : String) (v : Json) (e2 : GenericEvent)
    (h : genericStep e k v = .ok e2) : e2.header.payload = e.header.payload := by
  unfold genericStep at h
  by_cases h1 : (k == "name") = true
  · rw [if_pos h1] at h
    cases v with
    | str s =>
      injection h with h
      rw [← h]
    | null =>
      injection h with h
      rw [← h]
    | bool b => exact Except.noConfusion h
    | num n => exact Except.noConfusion h
    | arr xs => exact Except.noConfusion h
    | obj m => exact Except.noConfusion h
  · rw [if_neg h1] at h
    by_cases h2 : (k == "data") = true
    · rw [if_pos h2] at h
      injection h with h
      rw [← h]
    · rw [if_neg h2] at h
      injection h with h
      rw [← h]

/-- Generic decoding never touches the retained payload. -/
theorem genericApply_payload (kvs : List (String × Json)) :
    ∀ e e2, genericApply e kvs = .ok e2 → e2.header.payload = e.header.payload := by
  induction kvs with
  | nil =>
    intro e e2 h
    simp only [genericApply] at h
    injection h with h
    rw [← h]
  | cons kv rest ih =>
    intro e e2 h
    simp only [genericApply] at h
    cases hs : genericStep e kv.1 kv.2 with
    | ok emid =>
      rw [hs] at h
      exact (ih emid e2 h).trans (genericStep_payload _ _ _ _ hs)
    | error err =>
      rw [hs] at h
      exact Except.noConfusion h

/-- The generic event built by `parse` retains the raw payload, decoded or
not. -/
theorem genericParse_payload (p : Payload) :
    ((GenericEvent.parse p).1).header.payload = p := by
  unfold GenericEvent.parse
  cases hu : unmarshalGeneric { header := { payload := p } } p with
  | ok e =>
    simp only [hu]
    cases p with
    | malformed raw => exact Except.noConfusion hu
    | json doc =>
      cases doc with
      | obj kvs => exact genericApply_payload kvs _ _ hu
      | null => exact Except.noConfusion hu
      | bool b => exact Except.noConfusion hu
      | num n => exact Except.noConfusion hu
      | str s => exact Except.noConfusion hu
      | arr xs => exact Except.noConfusion hu
  | error err => simp [hu]

/-- Domain decoding never touches the retained payload (strong induction on
the size of the member list, to cover the nested `data` merge). -/
theorem domainApply_payload_bound :
    ∀ (n : Nat) (kvs : List (String × Json)), sizeOf kvs ≤ n →
      ∀ (e e2 : DomainEvent), domainApply e kvs = .ok e2 →
        e2.header.payload = e.header.payload := by
  intro n
  induction n with
  | zero =>
    intro kvs hsz
    have hpos : 0 < sizeOf kvs := by cases kvs <;> simp_arith
    omega
  | succ n ih =>
    intro kvs hsz e e2 h
    match kvs with
    | [] =>
      injection h with h
      rw [← h]
    | (k, v) :: rest =>
      have hrest : sizeOf rest ≤ n := by
        simp only [List.cons.sizeOf_spec, Prod.mk.sizeOf_spec] at hsz
        omega
      rw [domainApply_cons] at h
      by_cases h1 : (k == "name") = true
      · rw [if_pos h1] at h
        cases v with
        | str s =>
          exact ih rest hrest { e with header := { e.header with name := s } } e2 h
        | null => exact ih rest hrest _ _ h
        | bool b => exact Except.noConfusion h
        | num m => exact Except.noConfusion h
        | arr xs => exact Except.noConfusion h
        | obj m => exact Except.noConfusion h
      · rw [if_neg h1] at h
        by_cases h2 : (k == "domain") = true
        · rw [if_pos h2] at h
          cases v with
          | obj kvs2 =>
            exact ih rest hrest { e with Domain := some ⟨kvs2⟩ } e2 h
          | null =>
            exact ih rest hrest { e with Domain := none } e2 h
          | bool b => exact Except.noConfusion h
          | num m => exact Except.noConfusion h
          | arr xs => exact Except.noConfusion h
          | str s => exact Except.noConfusion h
        · rw [if_neg h2] at h
          by_cases h3 : (k == "data") = true
          · rw [if_pos h3] at h
            cases hd : domainData e v with
            | ok emid =>
              rw [hd] at h
              have hmid : emid.header.payload = e.header.payload := by
                cases v with
                | obj kvs2 =>
                  have hs2 : sizeOf kvs2 ≤ n := by
                    simp only [List.cons.sizeOf_spec, Prod.mk.sizeOf_spec,
                      Json.obj.sizeOf_spec] at hsz
                    omega
                  exact ih kvs2 hs2 _ _ hd
                | null =>
                  injection hd with hd
                  rw [← hd]
                | bool b => exact Except.noConfusion hd
                | num m => exact Except.noConfusion hd
                | arr xs => exact Except.noConfusion hd
                | str s => exact Except.noConfusion hd
              exact (ih rest hrest _ _ h).trans hmid
            | error err =>
              rw [hd] at h
              exact Except.noConfusion h
          · rw [if_neg h3] at h
            exact ih rest hrest _ _ h

/-- The domain event built by `parse` retains the raw payload. -/
theorem domainParse_payload (p : Payload) :
    ((DomainEvent.parse p).1).header.payload = p := by
  unfold DomainEvent.parse
  cases hu : unmarshalDomain { header := { payload := p } } p with
  | ok e =>
    simp only [hu]
    cases p with
    | malformed raw => exact Except.noConfusion hu
    | json doc =>
      cases doc with
      | obj kvs => exact domainApply_payload_bound (sizeOf kvs) kvs (le_refl _) _ _ hu
      | null => exact Except.noConfusion hu
      | bool b => exact Except.noConfusion hu
      | num n => exact Except.noConfusion hu
      | str s => exact Except.noConfusion hu
      | arr xs => exact Except.noConfusion hu
  | error err => simp [hu]

/-- Webhook-event decoding never touches the retained payload. -/
theorem webhookApply_payload_bound :
    ∀ (n : Nat) (kvs : List (String × Json)), sizeOf kvs ≤ n →
      ∀ (e e2 : WebhookEvent), webhookApply e kvs = .ok e2 →
        e2.header.payload = e.header.payload := by
  intro n
  induction n with
  | zero =>
    intro kvs hsz
    have hpos : 0 < sizeOf kvs := by cases kvs <;> simp_arith
    omega
  | succ n ih =>
    intro kvs hsz e e2 h
    match kvs with
    | [] =>
      injection h with h
      rw [← h]
    | (k, v) :: rest =>
      have hrest : sizeOf rest ≤ n := by
        simp only [List.cons.sizeOf_spec, Prod.mk.sizeOf_spec] at hsz
        omega
      rw [webhookApply_cons] at h
      by_cases h1 : (k == "name") = true
      · rw [if_pos h1] at h
        cases v with
        | str s =>
          exact ih rest hrest { e with header := { e.header with name := s } } e2 h
        | null => exact ih rest hrest _ _ h
        | bool b => exact Except.noConfusion h
        | num m => exact Except.noConfusion h
        | arr xs => exact Except.noConfusion h
        | obj m => exact Except.noConfusion h
      · rw [if_neg h1] at h
        by_cases h3 : (k == "data") = true
        · rw [if_pos h3] at h
          cases hd : webhookData e v with
          | ok emid =>
            rw [hd] at h
            have hmid : emid.header.payload = e.header.payload := by
              cases v with
              | obj kvs2 =>
                have hs2 : sizeOf kvs2 ≤ n := by
                  simp only [List.cons.sizeOf_spec, Prod.mk.sizeOf_spec,
                    Json.obj.sizeOf_spec] at hsz
                  omega
                exact ih kvs2 hs2 _ _ hd
              | null =>
                injection hd with hd
                rw [← hd]
              | bool b => exact Except.noConfusion hd
              | num m => exact Except.noConfusion hd
              | arr xs => exact Except.noConfusion hd
              | str s => exact Except.noConfusion hd
            exact (ih rest hrest _ _ h).trans hmid
          | error err =>
            rw [hd] at h
            exact Except.noConfusion h
        · rw [if_neg h3] at h
          exact ih rest hrest _ _ h

/-- The webhook event built by `parse` retains the raw payload. -/
theorem webhookParse_payload (p : Payload) :
    ((WebhookEvent.parse p).1).header.payload = p := by
  unfold WebhookEvent.parse
  cases hu : unmarshalWebhook { header := { payload := p } } p with
  | ok e =>
    simp only [hu]
    cases p with
    | malformed raw => exact Except.noConfusion hu
    | json doc =>
      cases doc with
      | obj kvs => exact webhookApply_payload_bound (sizeOf kvs) kvs (le_refl _) _ _ hu
      | null => exact Except.noConfusion hu
      | bool b => exact Except.noConfusion hu
      | num n => exact Except.noConfusion hu
      | str s => exact Except.noConfusion hu
      | arr xs => exact Except.noConfusion hu
  | error err => simp [hu]

end Webhook

namespace Webhook

/-- A member value found by `lookupLast "domain"` in a well-formed
domain-event object is an object. -/
theorem domainKvs_lookup_obj (kvs : List (String × Json)) (r : Json)
    (hok : domainKvsOk kvs = true) (h : lookupLast "domain" kvs = some r) :
    ∃ d, r = .obj d := by
  have hmem := lookupLast_mem h
  have := List.all_eq_true.mp hok _ hmem
  simp only [domainMemberOk] at this
  by_cases hn : (("domain" : String) == "name") = true
  · exact absurd hn (by decide)
  · rw [if_neg hn, if_pos (by decide)] at this
    match r, this with
    | .obj d, _ => exact ⟨d, rfl⟩

/-- On a well-formed domain-event object, decoding succeeds, keeps the
payload, and sets the Domain field from the last `domain` member. -/
theorem domainApply_ok (kvs : List (String × Json)) :
    ∀ e : DomainEvent, domainKvsOk kvs = true →
      ∃ e2, domainApply e kvs = .ok e2
        ∧ e2.header.payload = e.header.payload
        ∧ e2.Domain = (match lookupLast "domain" kvs with
            | some (.obj d) => some ⟨d⟩
            | _ => e.Domain) := by
  induction kvs with
  | nil =>
    intro e h
    exact ⟨e, rfl, rfl, rfl⟩
  | cons kv rest ih =>
    intro e h
    obtain ⟨k, v⟩ := kv
    simp only [domainKvsOk, List.all_cons, Bool.and_eq_true] at h
    obtain ⟨hkv, hrest⟩ := h
    have hrest' : domainKvsOk rest = true := hrest
    have hobj : ∀ r, lookupLast "domain" rest = some r → ∃ d, r = .obj d :=
      fun r hr => domainKvs_lookup_obj rest r hrest' hr
    unfold domainMemberOk at hkv
    by_cases h1 : (k == "name") = true
    · simp only [h1, if_true] at hkv
      match v, hkv with
      | .str s, _ =>
        obtain ⟨e2, he2, hp, hd⟩ := ih { e with header := { e.header with name := s } } hrest'
        refine ⟨e2, ?_, hp, ?_⟩
        · rw [domainApply_cons, if_pos h1]
          exact he2
        · rw [hd]
          have hk2 : (k == "domain") = false := by
            have hk : k = "name" := by simpa using h1
            rw [hk]
            decide
          simp only [lookupLast, hk2, Bool.false_eq_true, if_false]
          cases hcase : lookupLast "domain" rest with
          | some r =>
            obtain ⟨d, rfl⟩ := hobj r hcase
            simp only [hcase]
          | none => simp only [hcase]
    · rw [if_neg h1] at hkv
      by_cases h2 : (k == "domain") = true
      · simp only [h2, if_true] at hkv
        match v, hkv with
        | .obj dkvs, _ =>
          obtain ⟨e2, he2, hp, hd⟩ := ih { e with Domain := some ⟨dkvs⟩ } hrest'
          refine ⟨e2, ?_, hp, ?_⟩
          · rw [domainApply_cons, if_neg h1, if_pos h2]
            exact he2
          · rw [hd]
            have hk : k = "domain" := by simpa using h2
            simp only [lookupLast, hk, beq_self_eq_true, if_true]
            cases hcase : lookupLast "domain" rest with
            | some r =>
              obtain ⟨d, rfl⟩ := hobj r hcase
              simp only [hcase]
            | none => simp only [hcase]
      · rw [if_neg h2] at hkv
        have h3 : (k == "data") = false := by simpa using hkv
        obtain ⟨e2, he2, hp, hd⟩ := ih e hrest'
        refine ⟨e2, ?_, hp, ?_⟩
        · rw [domainApply_cons, if_neg h1, if_neg h2, if_neg (by simp [h3])]
          exact he2
        · rw [hd]
          have hk2 : (k == "domain") = false := by simpa using h2
          simp only [lookupLast, hk2, Bool.false_eq_true, if_false]
          cases hcase : lookupLast "domain" rest with
          | some r =>
            obtain ⟨d, rfl⟩ := hobj r hcase
            simp only [hcase]
          | none => simp only [hcase]

/-- On a well-formed generic-event object, decoding succeeds and keeps the
payload. -/
theorem genericApply_ok (kvs : List (String × Json)) :
    ∀ e : GenericEvent, genericKvsOk kvs = true →
      ∃ e2, genericApply e kvs = .ok e2 ∧ e2.header.payload = e.header.payload := by
  induction kvs with
  | nil =>
    intro e h
    exact ⟨e, rfl, rfl⟩
  | cons kv rest ih =>
    intro e h
    obtain ⟨k, v⟩ := kv
    simp only [genericKvsOk, List.all_cons, Bool.and_eq_true] at h
    obtain ⟨hkv, hrest⟩ := h
    have hrest' : genericKvsOk rest = true := hrest
    unfold genericMemberOk at hkv
    have hstep : ∃ emid, genericStep e k v = .ok emid ∧ emid.header.payload = e.header.payload := by
      unfold genericStep
      by_cases h1 : (k == "name") = true
      · simp only [h1, if_true] at hkv ⊢
        match v, hkv with
        | .str s, _ => exact ⟨_, rfl, rfl⟩
      · rw [if_neg h1]
        by_cases h2 : (k == "data") = true
        · rw [if_pos h2]
          exact ⟨_, rfl, rfl⟩
        · rw [if_neg h2]
          exact ⟨_, rfl, rfl⟩
    obtain ⟨emid, hs, hsp⟩ := hstep
    obtain ⟨e2, he2, hp⟩ := ih emid hrest'
    refine ⟨e2, ?_, hp.trans hsp⟩
    simp only [genericApply, hs]
    exact he2

end Webhook

namespace Webhook

/-- The boolean name switch of `switchEvent` agrees with membership in the
domain-event name list. -/
theorem switch_cond_iff (name : String) :
    ((name == "domain.create" || name == "domain.delete" || name == "domain.token_reset"
      || name == "domain.auto_renew_enable" || name == "domain.auto_renew_disable") = true)
      ↔ name ∈ domainEventNames := by
  simp [domainEventNames]
  tauto

/-- C3: the event-name string alone selects the decoded variant — the five
domain lifecycle names parse as DomainEvent, webhook.create as
WebhookEvent, every other name as the GenericEvent fallback — each with
the raw payload retained on the decoded value; on a well-formed
domain-event payload the Domain field is populated from the payload's
`domain` object, and for other names a well-formed payload decodes without
raising. -/
theorem C3_switchEvent_dispatch (name : String) (p : Payload) :
    (name ∈ domainEventNames →
       switchEvent name p
         = (some (.domain (DomainEvent.parse p).1), (DomainEvent.parse p).2)
       ∧ ((DomainEvent.parse p).1).header.payload = p)
    ∧ (name = "webhook.create" →
       switchEvent name p
         = (some (.webhook (WebhookEvent.parse p).1), (WebhookEvent.parse p).2)
       ∧ ((WebhookEvent.parse p).1).header.payload = p)
    ∧ (name ∉ domainEventNames → name ≠ "webhook.create" →
       switchEvent name p
         = (some (.generic (GenericEvent.parse p).1), (GenericEvent.parse p).2)
       ∧ ((GenericEvent.parse p).1).header.payload = p)
    ∧ (∀ kvs d, name ∈ domainEventNames → p = .json (.obj kvs) →
        domainKvsOk kvs = true → lookupLast "domain" kvs = some (.obj d) →
        (switchEvent name p).2 = none
        ∧ ∃ e, (switchEvent name p).1 = some (.domain e) ∧ e.Domain = some ⟨d⟩)
    ∧ (∀ kvs, name ∉ domainEventNames → name ≠ "webhook.create" →
        p = .json (.obj kvs) → genericKvsOk kvs = true →
        (switchEvent name p).2 = none) := by
  have hd_parse : ∀ kvs, domainKvsOk kvs = true →
      ∃ e2, DomainEvent.parse (.json (.obj kvs)) = (e2, none)
        ∧ e2.Domain = (match lookupLast "domain" kvs with
            | some (.obj d) => some ⟨d⟩
            | _ => none) := by
    intro kvs hok
    obtain ⟨e2, he2, hp, hdm⟩ :=
      domainApply_ok kvs { header := { payload := .json (.obj kvs) } } hok
    refine ⟨e2, ?_, hdm⟩
    unfold DomainEvent.parse
    rw [show unmarshalDomain { header := { payload := .json (.obj kvs) } } (.json (.obj kvs))
        = domainApply { header := { payload := .json (.obj kvs) } } kvs from rfl, he2]
  refine ⟨?_, ?_, ?_, ?_, ?_⟩
  · intro hm
    have hc := (switch_cond_iff name).mpr hm
    unfold switchEvent
    rw [if_pos hc]
    exact ⟨rfl, domainParse_payload p⟩
  · intro hn
    subst hn
    unfold switchEvent
    rw [if_neg (by decide), if_pos (by decide)]
    exact ⟨rfl, webhookParse_payload p⟩
  · intro hm hn
    have hc : ¬((name == "domain.create" || name == "domain.delete" || name == "domain.token_reset"
        || name == "domain.auto_renew_enable" || name == "domain.auto_renew_disable") = true) :=
      fun hx => hm ((switch_cond_iff name).mp hx)
    unfold switchEvent
    rw [if_neg hc, if_neg (by simpa using hn)]
    exact ⟨rfl, genericParse_payload p⟩
  · intro kvs d hm hp hok hdom
    subst hp
    have hc := (switch_cond_iff name).mpr hm
    obtain ⟨e2, hparse, hdm⟩ := hd_parse kvs hok
    unfold switchEvent
    rw [if_pos hc, hparse]
    refine ⟨rfl, e2, rfl, ?_⟩
    rw [hdm, hdom]
  · intro kvs hm hn hp hok
    subst hp
    have hc : ¬((name == "domain.create" || name == "domain.delete" || name == "domain.token_reset"
        || name == "domain.auto_renew_enable" || name == "domain.auto_renew_disable") = true) :=
      fun hx => hm ((switch_cond_iff name).mp hx)
    obtain ⟨e2, he2, _⟩ :=
      genericApply_ok kvs { header := { payload := .json (.obj kvs) } } hok
    unfold switchEvent
    rw [if_neg hc, if_neg (by simpa using hn)]
    show (GenericEvent.parse (.json (.obj kvs))).2 = none
    unfold GenericEvent.parse
    rw [show unmarshalGeneric { header := { payload := .json (.obj kvs) } } (.json (.obj kvs))
        = genericApply { header := { payload := .json (.obj kvs) } } kvs from rfl, he2]

/-- Witness for C3: "domain.create" with a payload carrying a `domain`
object decodes into the domain shape with Domain populated and no error;
"unknown.event" decodes into the generic fallback without error, payload
retained. -/
theorem C3_switchEvent_dispatch_witness :
    ("domain.create" ∈ domainEventNames)
    ∧ (switchEvent "domain.create"
        (.json (.obj [("name", .str "domain.create"), ("domain", .obj [("name", .str "example.com")])]))).2 = none
    ∧ (∃ e, (switchEvent "domain.create"
        (.json (.obj [("name", .str "domain.create"), ("domain", .obj [("name", .str "example.com")])]))).1
          = some (.domain e) ∧ e.Domain = some ⟨[("name", .str "example.com")]⟩)
    ∧ ("unknown.event" ∉ domainEventNames)
    ∧ (switchEvent "unknown.event" (.json (.obj [("name", .str "unknown.event")]))).2 = none
    ∧ ((GenericEvent.parse (.json (.obj [("name", .str "unknown.event")]))).1).header.payload
        = .json (.obj [("name", .str "unknown.event")]) := by
  have h1 := C3_switchEvent_dispatch "domain.create"
    (.json (.obj [("name", .str "domain.create"), ("domain", .obj [("name", .str "example.com")])]))
  have h2 := C3_switchEvent_dispatch "unknown.event"
    (.json (.obj [("name", .str "unknown.event")]))
  have hd := h1.2.2.2.1 [("name", .str "domain.create"), ("domain", .obj [("name", .str "example.com")])]
    [("name", .str "example.com")] (by decide) rfl (by decide) rfl
  refine ⟨by decide, hd.1, hd.2, by decide, ?_, ?_⟩
  · exact h2.2.2.2.2 [("name", .str "unknown.event")] (by decide) (by decide) rfl (by decide)
  · exact (h2.2.2.1 (by decide) (by decide)).2

/-- C4 as stated is false on the code: `switchEvent` returns
`(event, event.parse(payload))`, so on a decode failure the selected
(partially populated) event value is returned alongside the error, not
withheld. -/
theorem C4_counterexample :
    switchEvent "domain.create" (.malformed "not json")
      = (some (.domain { header := { payload := .malformed "not json" } }),
         some "invalid character in JSON input")
    ∧ (some (Event.domain { header := { payload := .malformed "not json" } })
        : Option Event) ≠ none :=
  ⟨rfl, by simp⟩

/-- C4 amended: on every decoding failure `switchEvent` surfaces the decode
error, and the selected event value — non-nil, with the original raw
payload retained on it — is returned alongside the error; callers must
check the error before using the event. -/
theorem C4_decode_error_event_returned (name : String) (p : Payload) (err : String)
    (h : (switchEvent name p).2 = some err) :
    ∃ e, (switchEvent name p).1 = some e ∧ Event.payloadOf e = p := by
  unfold switchEvent
  by_cases h1 : (name == "domain.create" || name == "domain.delete" || name == "domain.token_reset"
      || name == "domain.auto_renew_enable" || name == "domain.auto_renew_disable") = true
  · rw [if_pos h1]
    exact ⟨_, rfl, domainParse_payload p⟩
  · rw [if_neg h1]
    by_cases h2 : (name == "webhook.create") = true
    · rw [if_pos h2]
      exact ⟨_, rfl, webhookParse_payload p⟩
    · rw [if_neg h2]
      exact ⟨_, rfl, genericParse_payload p⟩

/-- Witness for C4 amended at a malformed payload. -/
theorem C4_decode_error_event_returned_witness :
    (switchEvent "domain.create" (.malformed "x")).2 = some "invalid character in JSON input"
    ∧ ∃ e, (switchEvent "domain.create" (.malformed "x")).1 = some e
        ∧ Event.payloadOf e = .malformed "x" :=
  ⟨rfl, C4_decode_error_event_returned "domain.create" (.malformed "x")
    "invalid character in JSON input" rfl⟩

end Webhook
